import Mathlib

/-!
Shallow embedding of the AGV traffic simulator core
(map data model, constrained Dijkstra pathfinder, traffic arbiter,
per-tick fleet update, spawn and set-target commands), together with
theorems settling the frozen claims about its specification.

Conventions of the embedding:
* JavaScript numbers are modelled as real numbers (`ℝ`); counters and
  identifiers that only ever hold integers (`waitTimer`, `retryCount`,
  `pathRank`, `id`, timestamps, edge weights) are modelled as `ℕ`.
* JavaScript objects used as string-keyed maps are modelled as functions
  `String → Option β`; `none` models a missing key (`undefined`).
* `Math.random()` and `Date.now()` are ambient effects: they are passed in
  explicitly as an `Ambient` record, one field per call site, so that the
  update functions are pure functions of state plus ambient inputs.
* A JavaScript crash (property access on `undefined`) is modelled by an
  `Option` result (`none` = the exception).
-/

/-- Node identifiers are strings, as in the source. -/
abbrev NodeId := String

/-- Map node: id, position, label (src/unnamed/part_001, types.ts `Node`). -/
structure Node where
  id : NodeId
  x : ℝ
  y : ℝ
  label : String

/-- Map edge with positive integer weight (types.ts `Edge`). -/
structure Edge where
  source : NodeId
  target : NodeId
  weight : ℕ

/-- Adjacency entry (types.ts `GraphNode`). -/
structure GraphNode where
  node : NodeId
  weight : ℕ
deriving DecidableEq

/-- The graph is a string-keyed map from node id to adjacency list; we keep
the key insertion order, as the source iterates object keys in that order. -/
abbrev Graph := List (NodeId × List GraphNode)

/-- Map data (types.ts `MapData`). -/
structure MapData where
  nodes : List Node
  edges : List Edge

/-- An undirected edge to avoid, the `{u, v}` records passed to `findPath`. -/
structure EdgeRef where
  u : NodeId
  v : NodeId
deriving DecidableEq

/-- Keys of the graph object, in insertion order. -/
def graphKeys (g : Graph) : List NodeId := g.map Prod.fst

/-- Adjacency lookup `graph[u]`; `none` models `undefined`. -/
def graphAdj (g : Graph) (u : NodeId) : Option (List GraphNode) :=
  g.lookup u

/-- The `avoidEdges.some(...)` test of `findPath`: an undirected match. -/
def edgeAvoided (avoidEdges : List EdgeRef) (u v : NodeId) : Bool :=
  avoidEdges.any (fun e => (e.u == u && e.v == v) || (e.u == v && e.v == u))

/-- Update of a string-keyed map (`obj[k] = x`). -/
def setKey {β : Type} (m : NodeId → Option β) (k : NodeId) (x : β) :
    NodeId → Option β :=
  fun v => if v = k then some x else m v

/-- Comparator used when the source sorts the queue by tentative distance
(`queue.sort((a, b) => distances[a] - distances[b])`): order by distance with
`Infinity` (here `⊤`) largest; ties (including `NaN` from `∞ - ∞`) keep their
relative order, since the ECMAScript sort is stable.  We model the stable
sort with `List.insertionSort`, which is stable and therefore produces the
same list.  Queue entries are always present in `dist`, so the `getD ⊤`
default is never exercised on source-reachable states. -/
def queueRel (dist : NodeId → Option ℕ∞) (a b : NodeId) : Prop :=
  ((dist a).getD ⊤) ≤ ((dist b).getD ⊤)

instance queueRelDecidable (dist : NodeId → Option ℕ∞) :
    DecidableRel (queueRel dist) :=
  fun _ _ => inferInstanceAs (Decidable (_ ≤ _))

instance (dist : NodeId → Option ℕ∞) : IsTotal NodeId (queueRel dist) :=
  ⟨fun _ _ => le_total _ _⟩

instance (dist : NodeId → Option ℕ∞) : IsTrans NodeId (queueRel dist) :=
  ⟨fun _ _ _ => le_trans⟩

/-- One relaxation pass over the adjacency list of the dequeued node `u`,
with finite tentative distance `du` (`findPath`'s inner `for` loop). -/
def relaxNeighbors (avoidNodes : List NodeId) (avoidEdges : List EdgeRef)
    (u : NodeId) (du : ℕ) :
    List GraphNode → (NodeId → Option ℕ∞) → (NodeId → Option (Option NodeId)) →
    (NodeId → Option ℕ∞) × (NodeId → Option (Option NodeId))
  | [], dist, prev => (dist, prev)
  | nb :: rest, dist, prev =>
    if avoidNodes.contains nb.node then
      relaxNeighbors avoidNodes avoidEdges u du rest dist prev
    else if edgeAvoided avoidEdges u nb.node then
      relaxNeighbors avoidNodes avoidEdges u du rest dist prev
    else
      let alt : ℕ := du + nb.weight
      match dist nb.node with
      | none =>
        -- `alt < undefined` is `NaN`-false in the source: no update.
        relaxNeighbors avoidNodes avoidEdges u du rest dist prev
      | some dv =>
        if (alt : ℕ∞) < dv then
          relaxNeighbors avoidNodes avoidEdges u du rest
            (setKey dist nb.node (alt : ℕ∞)) (setKey prev nb.node (some u))
        else
          relaxNeighbors avoidNodes avoidEdges u du rest dist prev

/-- The main Dijkstra loop of `findPath`: sort the queue by tentative
distance, shift the head, stop on the target or on an unreachable head,
otherwise relax its neighbors.  The `while (queue.length > 0)` loop removes
exactly one element per iteration, so running it with fuel equal to the
initial queue length is exact: the fuel runs out precisely when the queue
is empty. -/
def dijkstraLoop (g : Graph) (target : NodeId)
    (avoidNodes : List NodeId) (avoidEdges : List EdgeRef) :
    ℕ → (NodeId → Option ℕ∞) → (NodeId → Option (Option NodeId)) → List NodeId →
    (NodeId → Option ℕ∞) × (NodeId → Option (Option NodeId))
  | 0, dist, prev, _ => (dist, prev)
  | fuel + 1, dist, prev, queue =>
    match queue.insertionSort (queueRel dist) with
    | [] => (dist, prev)
    | u :: rest =>
      -- `if (!u) break`: a shifted empty string is falsy (`undefined` is the
      -- `[]` case above).
      if u = "" then (dist, prev)
      else if u = target then (dist, prev)
      else
        match dist u with
        | none =>
          -- `distances[u]` is `undefined`: not `Infinity`, and every
          -- relaxation test is `NaN`-false, so the body is a no-op.
          dijkstraLoop g target avoidNodes avoidEdges fuel dist prev rest
        | some du =>
          match du with
          | ⊤ => (dist, prev)
          | (dn : ℕ) =>
            let dp := relaxNeighbors avoidNodes avoidEdges u dn
              ((graphAdj g u).getD []) dist prev
            dijkstraLoop g target avoidNodes avoidEdges fuel dp.1 dp.2 rest

/-- Backwards walk along the `previous` chain (`while (u !== null)`), with
the visited nodes accumulated in front.  The fuel bounds the walk; on
source-reachable states the chain reaches a `null` entry (`some none`)
within `|keys|` steps.  A missing entry (`undefined`) makes the source loop
forever; the model stops there instead, and every theorem about `findPath`
assumes the target is a graph key, which rules that case out. -/
def reconWalk (prev : NodeId → Option (Option NodeId)) :
    ℕ → NodeId → List NodeId → List NodeId
  | 0, _, acc => acc
  | fuel + 1, u, acc =>
    match prev u with
    | some (some p) => reconWalk prev fuel p (u :: acc)
    | _ => u :: acc

/-- Constrained Dijkstra `findPath` (src/src/lib/pathfinding, lines 13-60):
single-source shortest path from `startNodeId`, skipping neighbors in
`avoidNodes` and edges matching `avoidEdges` in either direction, returning
the reconstructed node sequence without its first element. -/
def findPath (startNodeId targetNodeId : NodeId) (graph : Graph)
    (avoidNodes : List NodeId := []) (avoidEdges : List EdgeRef := []) :
    List NodeId :=
  let keys := graphKeys graph
  let dist0 : NodeId → Option ℕ∞ := fun v => if keys.contains v then some ⊤ else none
  let prev0 : NodeId → Option (Option NodeId) :=
    fun v => if keys.contains v then some none else none
  let dist1 := setKey dist0 startNodeId (0 : ℕ∞)
  let dp := dijkstraLoop graph targetNodeId avoidNodes avoidEdges keys.length dist1 prev0 keys
  let path :=
    if dp.2 targetNodeId ≠ some none ∨ targetNodeId = startNodeId then
      reconWalk dp.2 (keys.length + 1) targetNodeId []
    else []
  match path with
  | [] => []
  | _ :: t => t

/-! ## AGV data model (types.ts) -/

/-- AGV status (types.ts `AGVStatus`). -/
inductive AGVStatus where
  | IDLE
  | MOVING
  | WAITING
  | PLANNING
  | COMPLETED
  | REPATHING
  | BLOCKED
  | DETOUR
deriving DecidableEq

/-- The per-vehicle record (types.ts `AGV`, plus the `pathPlanningTime`
field that `useSimulation` reads and writes).  JavaScript numbers holding
continuous quantities are `ℝ`; integer-valued counters and timestamps
are `ℕ`. -/
structure AGV where
  id : ℕ
  x : ℝ
  y : ℝ
  currentNode : NodeId
  previousNode : Option NodeId
  targetNode : Option NodeId
  path : List NodeId
  progress : ℝ
  progressDistance : ℝ
  orientation : ℝ
  status : AGVStatus
  color : String
  waitTimer : ℕ
  waitReason : Option String
  maxSpeed : ℝ
  acceleration : ℝ
  deceleration : ℝ
  safetyDistance : ℝ
  hardBorrowLength : ℕ
  currentSpeed : ℝ
  retryCount : ℕ
  pathRank : ℕ
  reservedNodes : List NodeId
  pathPlanningTime : ℕ

/-- Fleet-wide configuration defaults (types.ts `FleetConfig`). -/
structure FleetConfig where
  maxSpeed : ℝ
  acceleration : ℝ
  deceleration : ℝ
  safetyDistance : ℝ
  hardBorrowLength : ℕ

/-! ## Traffic arbiter (src/src/lib/trafficManager.ts) -/

/-- Arbitration action. -/
inductive TrafficAction where
  | MOVE
  | WAIT
  | REPATH_HEAD_ON
deriving DecidableEq

/-- Result record of `checkTrafficRules` (`TrafficCheckResult`). -/
structure TrafficCheckResult where
  action : TrafficAction
  conflictReason : Option String
  avoidData : Option EdgeRef
  blockerId : Option ℕ

/-- Euclidean distance between two points, as the source computes it:
`Math.sqrt(Math.pow(x1 - x2, 2) + Math.pow(y1 - y2, 2))`. -/
noncomputable def euclid (x1 y1 x2 y2 : ℝ) : ℝ :=
  Real.sqrt ((x1 - x2) ^ 2 + (y1 - y2) ^ 2)

/-- JavaScript `Math.atan2(y, x)`: the argument of the complex number
`x + iy`, in `(-π, π]`.  (`Math.atan2(0, 0) = 0 = Complex.arg 0`.) -/
noncomputable def atan2 (y x : ℝ) : ℝ :=
  Complex.arg ⟨x, y⟩

/-- The angle-difference normalization of rule 5
(`while (diff > π) diff -= 2π; while (diff < -π) diff += 2π`).  Its input is
a difference of two `atan2` values, hence lies in `(-2π, 2π)`, so each
`while` loop executes at most once and a single conditional step is exact. -/
noncomputable def normalizeAngle (d : ℝ) : ℝ :=
  if d > Real.pi then d - 2 * Real.pi
  else if d < -Real.pi then d + 2 * Real.pi
  else d

/-- JavaScript string interpolation of a possibly-`undefined` value:
`undefined` renders as the string `"undefined"`. -/
def showOpt (o : Option String) : String :=
  o.getD "undefined"

/-- JavaScript `n.toString().slice(-4)`: the last four characters of the
decimal representation (the whole string when shorter). -/
def last4 (n : ℕ) : String :=
  let s := toString n
  s.drop (s.length - 4)

/-- Rule 1 of `checkTrafficRules` (head-on):
`myNext === otherCurrent && otherNext === myCurrent`.  `path[0]` of an empty
path is `undefined`, which is never `===` to a string, hence the `Option`
comparisons. -/
def rule1Fires (me other : AGV) : Prop :=
  me.path.head? = some other.currentNode ∧ other.path.head? = some me.currentNode

/-- Rule 2, conflict A (stationary occupant):
`otherCurrent === myNext && other.progress < 0.05` (under the rule-2 guard
`currentAgv.progress < 0.05`, applied at the call site). -/
def rule2aFires (me other : AGV) : Prop :=
  me.path.head? = some other.currentNode ∧ other.progress < 0.05

/-- Rule 2, conflict B (entry contention): `otherNext === myNext` and the
other vehicle is closer to the contested node, or within 5 pixels with the
lower id.  Note `undefined === undefined` is true, as the `Option` equality
reflects. -/
def rule2bFires (me other : AGV) (nn : Node) : Prop :=
  other.path.head? = me.path.head? ∧
    (euclid nn.x nn.y other.x other.y < euclid nn.x nn.y me.x me.y ∨
      (|euclid nn.x nn.y other.x other.y - euclid nn.x nn.y me.x me.y| < 5 ∧
        other.id < me.id))

/-- Rule 3 (moving occupant near): `myNext === otherCurrent` and the other
vehicle is within 60 pixels of the node the ego is standing on. -/
def rule3Fires (me other : AGV) (cn : Node) : Prop :=
  me.path.head? = some other.currentNode ∧ euclid cn.x cn.y other.x other.y < 60

/-- Rule 4 (mid-edge merge): `myNext === otherNext`, ego at least 5% down
its edge, and ego more than 15 pixels further from the shared node. -/
def rule4Fires (me other : AGV) (nn : Node) : Prop :=
  other.path.head? = me.path.head? ∧ me.progress ≥ 0.05 ∧
    euclid nn.x nn.y me.x me.y > euclid nn.x nn.y other.x other.y + 15

/-- Rule 5 (directional proximity sensor): the other vehicle is within the
safety distance, lies within ±π/2 of the heading of the current edge, and
one step of `currentSpeed` along the heading strictly decreases the gap. -/
noncomputable def rule5Fires (me other : AGV) (cn nn : Node) : Prop :=
  euclid me.x me.y other.x other.y < me.safetyDistance ∧
  |normalizeAngle (atan2 (other.y - me.y) (other.x - me.x) -
      atan2 (nn.y - cn.y) (nn.x - cn.x))| < Real.pi / 2 ∧
  euclid
    (me.x + (nn.x - cn.x) / Real.sqrt ((nn.x - cn.x) * (nn.x - cn.x) +
        (nn.y - cn.y) * (nn.y - cn.y)) * me.currentSpeed)
    (me.y + (nn.y - cn.y) / Real.sqrt ((nn.x - cn.x) * (nn.x - cn.x) +
        (nn.y - cn.y) * (nn.y - cn.y)) * me.currentSpeed)
    other.x other.y
    < euclid me.x me.y other.x other.y

open Classical in
/-- One iteration of the `for (const other of allAgvs)` body: the first of
rules 1-5 that fires against `other` produces a result and breaks out of
the loop; `none` means no rule fired for this vehicle.  The `id` skip is
handled by the caller.  Real-number comparisons are classically decidable;
the source compares IEEE doubles, which we model as exact reals. -/
noncomputable def checkAgainst (me other : AGV) (cn nn : Node) :
    Option TrafficCheckResult :=
  if rule1Fires me other then
    some ⟨.REPATH_HEAD_ON, some ("Head-on w/ AGV-" ++ last4 other.id),
      (me.path.head?).map (fun v => ⟨me.currentNode, v⟩), some other.id⟩
  else if me.progress < 0.05 ∧ rule2aFires me other then
    some ⟨.WAIT, some ("Dest " ++ showOpt me.path.head? ++ " Occupied"),
      none, some other.id⟩
  else if me.progress < 0.05 ∧ rule2bFires me other nn then
    some ⟨.WAIT, some ("Yield Entry to " ++ showOpt me.path.head? ++ " (Queue)"),
      none, some other.id⟩
  else if rule3Fires me other cn then
    some ⟨.WAIT, some ("Waiting Node " ++ showOpt me.path.head?),
      none, some other.id⟩
  else if rule4Fires me other nn then
    some ⟨.WAIT, some "Merge Yield", none, some other.id⟩
  else if rule5Fires me other cn nn then
    some ⟨.WAIT, some "Front Sensor: Stop", none, some other.id⟩
  else none

/-- The `for (const other of allAgvs)` loop of `checkTrafficRules`: skip
the ego, return the first rule hit, `MOVE` if the whole fleet passes. -/
noncomputable def loopOthers (me : AGV) (cn nn : Node) :
    List AGV → TrafficCheckResult
  | [] => ⟨.MOVE, none, none, none⟩
  | other :: rest =>
    if other.id = me.id then loopOthers me cn nn rest
    else
      match checkAgainst me other cn nn with
      | some r => r
      | none => loopOthers me cn nn rest

open Classical in
/-- The arbiter `checkTrafficRules` (trafficManager.ts, lines 10-139):
the reservation check (rule 0) runs first, against the whole fleet, then
rules 1-5 are evaluated per vehicle in fleet order. -/
noncomputable def checkTrafficRules (currentAgv : AGV) (allAgvs : List AGV)
    (currentNodeObj nextNodeObj : Node) : TrafficCheckResult :=
  match currentAgv.path with
  | myNextNode :: _ =>
    if currentAgv.progress < 0.05 then
      match allAgvs.find? (fun other =>
          other.id != currentAgv.id && other.reservedNodes.contains myNextNode) with
      | some reservingAgv =>
        ⟨.WAIT, some ("Node " ++ myNextNode ++ " Reserved"), none,
          some reservingAgv.id⟩
      | none => loopOthers currentAgv currentNodeObj nextNodeObj allAgvs
    else loopOthers currentAgv currentNodeObj nextNodeObj allAgvs
  | [] => loopOthers currentAgv currentNodeObj nextNodeObj allAgvs

/-! ## Simulation driver (src/unnamed/part_001, `useSimulation`) -/

/-- The retry period of the deadlock-recovery ladder. -/
def RETRY_INTERVAL : ℕ := 60

/-- Ambient effects consumed by one AGV's update inside a tick:
the `Math.random()` draw deciding whether the auto-pilot requests a target
(`rand1`), the `Math.random()` draw selecting the target (`rand2`), and the
`Date.now()` timestamp (`now`).  The source reads these from the global
environment; the embedding passes them explicitly. -/
structure Ambient where
  rand1 : ℝ
  rand2 : ℝ
  now : ℕ

/-- JavaScript `list[Math.floor(r * list.length)]`: `none` models the
`undefined` produced by an out-of-range index (in particular on an empty
list). -/
noncomputable def jsIndex {α : Type} (l : List α) (r : ℝ) : Option α :=
  let i : ℤ := ⌊r * l.length⌋
  if 0 ≤ i then l.get? i.toNat else none

open Classical in
/-- The auto-pilot branch of `updateSimulation` (part_001, lines 137-167):
for an IDLE/COMPLETED vehicle moving slower than 0.1, a Bernoulli(0.05)
draw on `Math.random()` decides whether to pick a random new target among
nodes that are neither the vehicle's current node nor another vehicle's
target.  Returns `none` when the branch does not fire and execution falls
through to the movement logic. -/
noncomputable def autoPilotStep (amb : Ambient) (mapData : MapData)
    (graph : Graph) (prevAgvs : List AGV) (agv : AGV) : Option AGV :=
  if (agv.status = .IDLE ∨ agv.status = .COMPLETED) ∧ agv.currentSpeed < 0.1 then
    if amb.rand1 < 0.05 then
      let reservedTargets : List NodeId :=
        (prevAgvs.filter (fun a => a.id != agv.id && a.targetNode.isSome)).filterMap
          (fun a => a.targetNode)
      let possibleTargets := mapData.nodes.filter (fun n =>
        n.id != agv.currentNode && !(reservedTargets.contains n.id))
      if possibleTargets.length > 0 then
        match jsIndex possibleTargets amb.rand2 with
        | some randomTarget =>
          let newPath := findPath agv.currentNode randomTarget.id graph
          some { agv with
            targetNode := some randomTarget.id,
            path := newPath,
            status := .PLANNING,
            waitTimer := 0,
            retryCount := 0,
            pathRank := 0,
            reservedNodes := newPath.take agv.hardBorrowLength,
            pathPlanningTime := amb.now }
        | none => none
          -- an out-of-range draw would make the source crash on
          -- `randomTarget.id`; unreachable for `rand2 ∈ [0, 1)`.
      else none
    else none
  else none

open Classical in
/-- One AGV's update inside `updateSimulation`'s `prevAgvs.map` (part_001,
lines 136-408): auto-pilot, then the no-target idle branch, then node
lookups, traffic arbitration, the repath / wait / recovery ladder, and
finally the physics engine.  `graph[agv.currentNode]` being `undefined`
(a crash in the source) is modelled as an empty adjacency list. -/
noncomputable def updateAgvStep (randomMoveMode : Bool) (amb : Ambient)
    (mapData : MapData) (graph : Graph) (prevAgvs : List AGV) (agv : AGV) : AGV :=
  match
    (if randomMoveMode then autoPilotStep amb mapData graph prevAgvs agv else none)
  with
  | some result => result
  | none =>
  match agv.targetNode, agv.path with
  | some tgt, nextNodeId :: _ =>
    (match mapData.nodes.find? (fun n => n.id == agv.currentNode),
           mapData.nodes.find? (fun n => n.id == nextNodeId) with
     | some currentNodeObj, some nextNodeObj =>
       let dx := nextNodeObj.x - currentNodeObj.x
       let dy := nextNodeObj.y - currentNodeObj.y
       let currentEdgeDistance := Real.sqrt (dx * dx + dy * dy)
       let currentAgvWithReservation :=
         { agv with reservedNodes := agv.path.take agv.hardBorrowLength }
       let r := checkTrafficRules currentAgvWithReservation prevAgvs
         currentNodeObj nextNodeObj
       if r.action = .REPATH_HEAD_ON then
         let avoidEdges := match r.avoidData with | some e => [e] | none => []
         let detourPath := findPath agv.currentNode tgt graph [] avoidEdges
         if detourPath.length > 0 then
           let newReservedNodes := detourPath.take agv.hardBorrowLength
           if agv.progress < 0.05 then
             { agv with
               path := detourPath, status := .REPATHING, waitTimer := 0,
               pathRank := 0, currentSpeed := 0,
               reservedNodes := newReservedNodes, pathPlanningTime := amb.now }
           else
             { agv with
               currentNode := nextNodeId,
               path := agv.currentNode :: detourPath,
               progress := 1 - agv.progress,
               progressDistance := currentEdgeDistance * (1 - agv.progress),
               status := .REPATHING, waitTimer := 0, currentSpeed := 0,
               pathRank := 0, reservedNodes := newReservedNodes }
         else
           { agv with
             status := .BLOCKED, waitTimer := 0,
             currentSpeed := max 0 (agv.currentSpeed - agv.deceleration),
             reservedNodes := [] }
       else if r.action = .WAIT then
         let newSpeed := max 0 (agv.currentSpeed - agv.deceleration)
         let newTimer := agv.waitTimer + 1
         if newTimer > RETRY_INTERVAL then
           let newRetryCount := agv.retryCount + 1
           let blocker : Option AGV := match r.blockerId with
             | some b => prevAgvs.find? (fun a => a.id == b)
             | none => none
           let isBlockerWaiting : Prop := match blocker with
             | some b => b.status = .WAITING ∨ b.status = .BLOCKED
             | none => False
           let rankedRetry : AGV :=
             let blockedNodeId := nextNodeId
             let oldCurrentNodeId := agv.currentNode
             let detourPath := findPath oldCurrentNodeId tgt graph [blockedNodeId] []
             if detourPath.length > 0 then
               let newReservedNodes := detourPath.take agv.hardBorrowLength
               if agv.progress > 0 then
                 { agv with
                   currentNode := blockedNodeId,
                   path := oldCurrentNodeId :: detourPath,
                   progress := 1 - agv.progress,
                   progressDistance := currentEdgeDistance * (1 - agv.progress),
                   status := .DETOUR, waitTimer := 0, currentSpeed := 0,
                   retryCount := 0, pathRank := 0,
                   reservedNodes := newReservedNodes }
               else
                 { agv with
                   path := detourPath, status := .DETOUR, waitTimer := 0,
                   retryCount := 0, pathRank := 0, currentSpeed := 0,
                   reservedNodes := newReservedNodes }
             else
               { agv with
                 status := .WAITING, waitReason := r.conflictReason,
                 waitTimer := 0, currentSpeed := newSpeed,
                 retryCount := newRetryCount, reservedNodes := [] }
           if newRetryCount ≥ 3 ∧ isBlockerWaiting then
             let fallbackNeighbors : Option NodeId × Bool :=
               let neighbors := ((graphAdj graph agv.currentNode).getD []).map
                 (fun n => n.node)
               let validNeighbors := neighbors.filter (fun n => n != nextNodeId)
               (validNeighbors.head?, false)
             let sbPair : Option NodeId × Bool :=
               if agv.progress > 0.1 then (some agv.currentNode, true)
               else match agv.previousNode with
                 | some pn =>
                   if ((graphAdj graph agv.currentNode).getD []).any
                       (fun n => n.node == pn) then (some pn, false)
                   else fallbackNeighbors
                 | none => fallbackNeighbors
             match sbPair.1 with
             | some stepBackNode =>
               let newPathToTarget := findPath stepBackNode tgt graph
               let newReservedNodes := newPathToTarget.take agv.hardBorrowLength
               if sbPair.2 then
                 { agv with
                   currentNode := nextNodeId,
                   path := agv.currentNode :: newPathToTarget,
                   progress := 1 - agv.progress,
                   progressDistance := currentEdgeDistance * (1 - agv.progress),
                   status := .REPATHING, waitTimer := 0, retryCount := 0,
                   currentSpeed := 0, reservedNodes := newReservedNodes }
               else
                 { agv with
                   path := stepBackNode :: newPathToTarget, status := .DETOUR,
                   waitTimer := 0, retryCount := 0, currentSpeed := 0,
                   reservedNodes := newReservedNodes }
             | none => rankedRetry
           else rankedRetry
         else
           { agv with
             status := .WAITING, waitReason := r.conflictReason,
             waitTimer := newTimer, currentSpeed := newSpeed }
       else
         -- physics engine
         let distRemaining := currentEdgeDistance - agv.progressDistance
         let isFinalEdge := agv.path.length = 1
         let targetSpeed : ℝ :=
           if isFinalEdge ∧ distRemaining ≤
               (agv.currentSpeed * agv.currentSpeed) / (2 * agv.deceleration) + 5
           then 0 else agv.maxSpeed
         let newSpeed :=
           if agv.currentSpeed < targetSpeed then
             min (agv.currentSpeed + agv.acceleration) targetSpeed
           else if agv.currentSpeed > targetSpeed then
             max (agv.currentSpeed - agv.deceleration) targetSpeed
           else agv.currentSpeed
         let newProgressDistance := agv.progressDistance + newSpeed
         let progress1 := newProgressDistance / currentEdgeDistance
         let snap := isFinalEdge ∧ distRemaining < 10 ∧ newSpeed < 0.5
         let progress2 := if snap then 1 else progress1
         let npd2 := if snap then currentEdgeDistance else newProgressDistance
         let progress3 := if progress2 > 1 then 1 else progress2
         let newX := currentNodeObj.x + dx * progress3
         let newY := currentNodeObj.y + dy * progress3
         let angle := atan2 dy dx * (180 / Real.pi)
         if progress3 ≥ 1 then
           let remainingPath := agv.path.tail
           let hasArrived := remainingPath = []
           let finalReservedNodes :=
             if hasArrived then [] else remainingPath.take agv.hardBorrowLength
           { agv with
             x := nextNodeObj.x, y := nextNodeObj.y,
             currentNode := nextNodeId,
             previousNode := some agv.currentNode,
             path := remainingPath, progressDistance := 0, progress := 0,
             orientation := angle,
             status := if hasArrived then .COMPLETED else .MOVING,
             targetNode := if hasArrived then none else agv.targetNode,
             waitTimer := 0, waitReason := none,
             currentSpeed := if hasArrived then 0 else newSpeed,
             retryCount := 0, pathRank := 0,
             reservedNodes := finalReservedNodes }
         else
           { agv with
             x := newX, y := newY, progressDistance := npd2,
             progress := progress3, orientation := angle, status := .MOVING,
             waitTimer := 0, waitReason := none, currentSpeed := newSpeed,
             reservedNodes := currentAgvWithReservation.reservedNodes }
     | _, _ => agv)
  | _, _ =>
    -- `!agv.targetNode || agv.path.length === 0`
    { agv with
      status := .IDLE,
      currentSpeed := max 0 (agv.currentSpeed - agv.deceleration),
      waitTimer := 0, reservedNodes := [] }

/-- One whole tick: `prevAgvs.map(...)` with the read snapshot fixed to the
fleet at the start of the tick.  Each vehicle consumes its own ambient
draws, indexed by its position in the fleet list. -/
noncomputable def updateSimulation (randomMoveMode : Bool) (ambs : ℕ → Ambient)
    (mapData : MapData) (graph : Graph) (prevAgvs : List AGV) : List AGV :=
  prevAgvs.mapIdx (fun i agv =>
    updateAgvStep randomMoveMode (ambs i) mapData graph prevAgvs agv)

/-! ## Commands: spawn (part_001, lines 86-130) and set-target
(src/example.jsx, `handleNodeClick`, lines 813-844) -/

/-- Ambient effects of `spawnAgv`: the `Math.random()` position draw, the
`Math.random()` hue draw, and the two `Date.now()` reads (`id` and
`pathPlanningTime`). -/
structure SpawnAmbient where
  rand1 : ℝ
  rand2 : ℝ
  now : ℕ
  now2 : ℕ

/-- Cosmetic color string; only its dependence on the draw is modelled
(the exact JavaScript float rendering of the hue is not). -/
noncomputable def hslColor (r : ℝ) : String :=
  "hsl(" ++ toString ⌊r * 360⌋ ++ ", 70%, 50%)"

open Classical in
/-- The `spawnAgv` command: pick a start node among nodes at least
`2 * safetyDistance` away from every existing AGV, falling back to a
uniformly random node.  `none` models the `TypeError` the source throws
when the indexing yields `undefined` (in particular on an empty map,
where both node lists are empty). -/
noncomputable def spawnAgv (mapData : MapData) (agvs : List AGV)
    (fleetConfig : FleetConfig) (amb : SpawnAmbient) : Option AGV :=
  let safeNodes := mapData.nodes.filter (fun node =>
    !(agvs.any (fun a => decide
      (Real.sqrt ((a.x - node.x) ^ 2 + (a.y - node.y) ^ 2) <
        fleetConfig.safetyDistance * 2))))
  let startNode? :=
    if safeNodes.length > 0 then jsIndex safeNodes amb.rand1
    else jsIndex mapData.nodes amb.rand1
  match startNode? with
  | none => none
  | some startNode =>
    some {
      id := amb.now,
      x := startNode.x, y := startNode.y,
      currentNode := startNode.id, previousNode := none, targetNode := none,
      path := [], progress := 0, progressDistance := 0, orientation := 0,
      status := .IDLE, color := hslColor amb.rand2, waitTimer := 0,
      waitReason := none, maxSpeed := fleetConfig.maxSpeed,
      acceleration := fleetConfig.acceleration,
      deceleration := fleetConfig.deceleration,
      safetyDistance := fleetConfig.safetyDistance,
      hardBorrowLength := fleetConfig.hardBorrowLength, currentSpeed := 0,
      retryCount := 0, pathRank := 0, reservedNodes := [],
      pathPlanningTime := amb.now2 }

/-- The fleet-level effect of `spawnAgv` (`setAgvs(prev => [...prev, newAgv])`);
`none` models the crash, which happens before `setAgvs` runs, so the fleet
is untouched in that case. -/
noncomputable def spawnAgvFleet (mapData : MapData) (agvs : List AGV)
    (fleetConfig : FleetConfig) (amb : SpawnAmbient) : Option (List AGV) :=
  (spawnAgv mapData agvs fleetConfig amb).map (fun a => agvs ++ [a])

open Classical in
/-- The per-AGV update of `handleNodeClick` (example.jsx, lines 813-844):
plan from the current node, or from `path[0]` when mid-edge (prefixing the
far node so the edge is finished first), and unconditionally enter
PLANNING with the new target — even when `findPath` found no route. -/
noncomputable def handleNodeClickUpdate (graph : Graph) (nodeId : NodeId)
    (agv : AGV) : AGV :=
  let sp : NodeId × List NodeId :=
    match agv.path with
    | p0 :: _ =>
      if agv.progress > 0 then (p0, [p0]) else (agv.currentNode, [])
    | [] => (agv.currentNode, [])
  let newRoute := findPath sp.1 nodeId graph
  let fullPath := sp.2 ++ newRoute
  { agv with
    targetNode := some nodeId,
    path := fullPath,
    status := .PLANNING,
    waitTimer := 0,
    waitReason := none,
    retryCount := 0,
    pathRank := 0,
    reservedNodes := fullPath.take agv.hardBorrowLength }

/-! ## Concrete fixtures used by witnesses and counterexamples -/

/-- Test node at the origin. -/
def nodeA : Node := ⟨"A", 0, 0, "Loc A"⟩

/-- Test node 100 pixels right of `nodeA`. -/
def nodeB : Node := ⟨"B", 100, 0, "Loc B"⟩

/-- Test node 200 pixels right of `nodeA`. -/
def nodeC : Node := ⟨"C", 200, 0, "Loc C"⟩

/-- Test node below `nodeB`. -/
def nodeD : Node := ⟨"D", 100, 120, "Loc D"⟩

/-- A baseline AGV record with the fleet-default configuration
(maxSpeed 1.4, acceleration 0.10, deceleration 0.15, safetyDistance 35,
hardBorrowLength 1), resting at node A. -/
def agvBase : AGV :=
  { id := 1, x := 0, y := 0, currentNode := "A", previousNode := none,
    targetNode := none, path := [], progress := 0, progressDistance := 0,
    orientation := 0, status := .IDLE, color := "c1",
    waitTimer := 0, waitReason := none, maxSpeed := 1.4, acceleration := 0.1,
    deceleration := 0.15, safetyDistance := 35, hardBorrowLength := 1,
    currentSpeed := 0, retryCount := 0, pathRank := 0, reservedNodes := [],
    pathPlanningTime := 0 }

/-- Iterated ticks: `iterateTick ... n fleet` runs `n` whole ticks, the
ambient draws indexed by tick number and fleet position. -/
noncomputable def iterateTick (randomMoveMode : Bool) :
    (ℕ → ℕ → Ambient) → MapData → Graph → ℕ → List AGV → List AGV
  | _, _, _, 0, fleet => fleet
  | ambs, mapData, graph, n + 1, fleet =>
    iterateTick randomMoveMode (fun k => ambs (k + 1)) mapData graph n
      (updateSimulation randomMoveMode (ambs 0) mapData graph fleet)

/-- A fixed ambient record for closed counterexamples. -/
def amb0 : Ambient := ⟨0.5, 0.5, 0⟩

/-- Ambient with a Bernoulli draw below the 0.05 auto-pilot threshold. -/
def ambLow : Ambient := ⟨0.01, 0, 0⟩

/-- Ambient with a Bernoulli draw above the 0.05 auto-pilot threshold. -/
def ambHigh : Ambient := ⟨0.9, 0, 0⟩

/-- Two-node test map. -/
def mapAB : MapData := ⟨[nodeA, nodeB], [⟨"A", "B", 100⟩]⟩

/-- Graph of `mapAB`. -/
def graphAB : Graph := [("A", [⟨"B", 100⟩]), ("B", [⟨"A", 100⟩])]

/-- Four-node test map: a line A-B-C plus a detour D. -/
def map4 : MapData :=
  ⟨[nodeA, nodeB, nodeC, nodeD],
   [⟨"A", "B", 100⟩, ⟨"B", "C", 100⟩, ⟨"A", "D", 100⟩,
    ⟨"D", "C", 100⟩, ⟨"C", "B", 100⟩]⟩

/-- Graph of `map4`: edges A-B, B-C, A-D, D-C (all weight 100). -/
def graph4 : Graph :=
  [("A", [⟨"B", 100⟩, ⟨"D", 100⟩]),
   ("B", [⟨"A", 100⟩, ⟨"C", 100⟩]),
   ("C", [⟨"B", 100⟩, ⟨"D", 100⟩]),
   ("D", [⟨"A", 100⟩, ⟨"C", 100⟩])]

/-- A vehicle that has just arrived: COMPLETED, no target, empty path. -/
def agvCompleted : AGV :=
  { agvBase with
    status := .COMPLETED, x := 100, currentNode := "B",
    previousNode := some "A" }

/-- Ego vehicle halfway down edge A→B towards a head-on conflict. -/
def egoHeadOn : AGV :=
  { agvBase with
    id := 1, x := 50, y := 0, currentNode := "A",
    path := ["B"], targetNode := some "B", progress := 0.5,
    progressDistance := 50, status := .MOVING, currentSpeed := 1.4 }

/-- Opposing vehicle resting at B and heading back to A. -/
def otherHeadOn : AGV :=
  { agvBase with
    id := 2, x := 100, y := 0, currentNode := "B",
    path := ["A"], targetNode := some "A", status := .MOVING }

/-- A WAITING vehicle at A whose retry timer is about to cross
`RETRY_INTERVAL` with `retryCount = 2`. -/
def egoWait : AGV :=
  { agvBase with
    id := 1, currentNode := "A", path := ["B"],
    targetNode := some "C", status := .WAITING, waitTimer := 60,
    retryCount := 2 }

/-- An idle vehicle parked on node B (not WAITING/BLOCKED). -/
def blockerIdle : AGV :=
  { agvBase with id := 2, x := 100, currentNode := "B", status := .IDLE }

/-- Ego vehicle resting at A and about to enter B (for the arbiter-order
counterexample). -/
def egoC2 : AGV :=
  { agvBase with
    id := 1, currentNode := "A", path := ["B"],
    targetNode := some "C", status := .MOVING }

/-- A stationary vehicle occupying B with an empty path: fires rule R2a
against `egoC2`, and no earlier rule. -/
def aStat : AGV :=
  { agvBase with id := 2, x := 100, currentNode := "B", path := [] }

/-- A vehicle at B heading back to A: fires the head-on rule R1 against
`egoC2`. -/
def aHead : AGV :=
  { agvBase with
    id := 3, x := 100, currentNode := "B", path := ["A"],
    targetNode := some "A" }

/-- A two-component map: A-B connected, E isolated. -/
def mapDisc : MapData := ⟨[nodeA, nodeB, ⟨"E", 500, 500, "Loc E"⟩], [⟨"A", "B", 100⟩]⟩

/-- Graph of `mapDisc`. -/
def graphDisc : Graph :=
  [("A", [⟨"B", 100⟩]), ("B", [⟨"A", 100⟩]), ("E", [])]

/-- Tiny undirected graph A-B used by the pathfinder counterexample. -/
def gAB2 : Graph := [("A", [⟨"B", 1⟩]), ("B", [⟨"A", 1⟩])]

open Classical in
/-- The WAIT-verdict branch of `updateAgvStep` (part_001, lines 227-331),
factored out verbatim so that theorems can reason about it in isolation:
decelerate and count the wait; on crossing `RETRY_INTERVAL`, either step
back (when the blocker itself waits and three retries have accrued) or
attempt the ranked detour avoiding the blocked next node. -/
noncomputable def waitBranchUpdate (graph : Graph) (prevAgvs : List AGV)
    (agv : AGV) (tgt nextNodeId : NodeId) (currentEdgeDistance : ℝ)
    (r : TrafficCheckResult) : AGV :=
  let newSpeed := max 0 (agv.currentSpeed - agv.deceleration)
  let newTimer := agv.waitTimer + 1
  if newTimer > RETRY_INTERVAL then
    let newRetryCount := agv.retryCount + 1
    let blocker : Option AGV := match r.blockerId with
      | some b => prevAgvs.find? (fun a => a.id == b)
      | none => none
    let isBlockerWaiting : Prop := match blocker with
      | some b => b.status = .WAITING ∨ b.status = .BLOCKED
      | none => False
    let rankedRetry : AGV :=
      let blockedNodeId := nextNodeId
      let oldCurrentNodeId := agv.currentNode
      let detourPath := findPath oldCurrentNodeId tgt graph [blockedNodeId] []
      if detourPath.length > 0 then
        let newReservedNodes := detourPath.take agv.hardBorrowLength
        if agv.progress > 0 then
          { agv with
            currentNode := blockedNodeId,
            path := oldCurrentNodeId :: detourPath,
            progress := 1 - agv.progress,
            progressDistance := currentEdgeDistance * (1 - agv.progress),
            status := .DETOUR, waitTimer := 0, currentSpeed := 0,
            retryCount := 0, pathRank := 0,
            reservedNodes := newReservedNodes }
        else
          { agv with
            path := detourPath, status := .DETOUR, waitTimer := 0,
            retryCount := 0, pathRank := 0, currentSpeed := 0,
            reservedNodes := newReservedNodes }
      else
        { agv with
          status := .WAITING, waitReason := r.conflictReason,
          waitTimer := 0, currentSpeed := newSpeed,
          retryCount := newRetryCount, reservedNodes := [] }
    if newRetryCount ≥ 3 ∧ isBlockerWaiting then
      let fallbackNeighbors : Option NodeId × Bool :=
        let neighbors := ((graphAdj graph agv.currentNode).getD []).map
          (fun n => n.node)
        let validNeighbors := neighbors.filter (fun n => n != nextNodeId)
        (validNeighbors.head?, false)
      let sbPair : Option NodeId × Bool :=
        if agv.progress > 0.1 then (some agv.currentNode, true)
        else match agv.previousNode with
          | some pn =>
            if ((graphAdj graph agv.currentNode).getD []).any
                (fun n => n.node == pn) then (some pn, false)
            else fallbackNeighbors
          | none => fallbackNeighbors
      match sbPair.1 with
      | some stepBackNode =>
        let newPathToTarget := findPath stepBackNode tgt graph
        let newReservedNodes := newPathToTarget.take agv.hardBorrowLength
        if sbPair.2 then
          { agv with
            currentNode := nextNodeId,
            path := agv.currentNode :: newPathToTarget,
            progress := 1 - agv.progress,
            progressDistance := currentEdgeDistance * (1 - agv.progress),
            status := .REPATHING, waitTimer := 0, retryCount := 0,
            currentSpeed := 0, reservedNodes := newReservedNodes }
        else
          { agv with
            path := stepBackNode :: newPathToTarget, status := .DETOUR,
            waitTimer := 0, retryCount := 0, currentSpeed := 0,
            reservedNodes := newReservedNodes }
      | none => rankedRetry
    else rankedRetry
  else
    { agv with
      status := .WAITING, waitReason := r.conflictReason,
      waitTimer := newTimer, currentSpeed := newSpeed }

/-- The possible shapes of the speed written by one tick, used by the
speed-bound analysis: unchanged, zeroed, one deceleration step toward
zero, or one acceleration/deceleration step toward a target speed that is
either 0 or `maxSpeed` (the physics convergence). -/
def SpeedShape (agv : AGV) (s : ℝ) : Prop :=
  s = agv.currentSpeed ∨ s = 0 ∨
  s = max 0 (agv.currentSpeed - agv.deceleration) ∨
  ∃ ts : ℝ, (ts = 0 ∨ ts = agv.maxSpeed) ∧
    ((s = min (agv.currentSpeed + agv.acceleration) ts ∧ agv.currentSpeed < ts) ∨
     (s = max (agv.currentSpeed - agv.deceleration) ts ∧ agv.currentSpeed > ts))

/-! ## Path semantics (for the pathfinder claims) -/

/-- One admissible step of `findPath`'s search: an adjacency entry of
weight `w` from `u` to `v` whose endpoint is not an avoided node and whose
edge is not avoided in either direction. -/
def AllowedStep (g : Graph) (avoidNodes : List NodeId)
    (avoidEdges : List EdgeRef) (u v : NodeId) (w : ℕ) : Prop :=
  (∃ adj, graphAdj g u = some adj ∧ ⟨v, w⟩ ∈ adj) ∧
    ¬ avoidNodes.contains v ∧ ¬ edgeAvoided avoidEdges u v

/-- `PathCost g aN aE u steps c`: `steps` is an admissible step sequence
starting at `u`, of total cost `c` (choosing one adjacency entry per
step; parallel entries may give several costs). -/
inductive PathCost (g : Graph) (avoidNodes : List NodeId)
    (avoidEdges : List EdgeRef) : NodeId → List NodeId → ℕ → Prop
  | nil (u : NodeId) : PathCost g avoidNodes avoidEdges u [] 0
  | cons {u v : NodeId} {w : ℕ} {steps : List NodeId} {c : ℕ}
      (hstep : AllowedStep g avoidNodes avoidEdges u v w)
      (htail : PathCost g avoidNodes avoidEdges v steps c) :
      PathCost g avoidNodes avoidEdges u (v :: steps) (w + c)

/-- The set of costs of admissible step sequences from `start` ending at
`goal`; `last (start :: steps) = goal` expressed via `getLastD`. -/
def ReachCosts (g : Graph) (avoidNodes : List NodeId)
    (avoidEdges : List EdgeRef) (start goal : NodeId) : Set ℕ∞ :=
  { c : ℕ∞ | ∃ (steps : List NodeId) (n : ℕ), c = (n : ℕ∞) ∧
      PathCost g avoidNodes avoidEdges start steps n ∧
      steps.getLastD start = goal }

/-- The claim-side avoidance reading: the whole node sequence of the
returned path, start included, avoids every node of `avoidNodes`.
Modelled from the claim's words (it is the spec-side predicate compared
against the code's behavior in the pathfinder counterexample). -/
def AvoidsAllNodes (start : NodeId) (steps : List NodeId)
    (avoidNodes : List NodeId) : Prop :=
  ∀ v ∈ start :: steps, ¬ avoidNodes.contains v

/-- Positive edge weights, stated on the adjacency-list representation. -/
def PosWeights (g : Graph) : Prop :=
  ∀ p ∈ g, ∀ e ∈ p.2, 0 < e.weight

/-- The queue-independent part of the Dijkstra loop invariant: domains,
start entries, soundness of finite tentative distances, ⊤-characterisation
of untouched entries, and the predecessor-chain equations. -/
structure DState (g : Graph) (aN : List NodeId) (aE : List EdgeRef)
    (start : NodeId) (dist : NodeId → Option ℕ∞)
    (prev : NodeId → Option (Option NodeId)) : Prop where
  ddom : ∀ v, (dist v).isSome ↔ v ∈ graphKeys g
  pdom : ∀ v, (prev v).isSome ↔ v ∈ graphKeys g
  dstart : dist start = some 0
  pstart : prev start = some none
  sound : ∀ v (n : ℕ), dist v = some ((n : ℕ∞)) →
    ((n : ℕ∞)) ∈ ReachCosts g aN aE start v
  topprev : ∀ v, v ≠ start → prev v = some none → dist v = some ⊤
  chainF : ∀ v p, prev v = some (some p) →
    p ∈ graphKeys g ∧ ∃ (w dp : ℕ), AllowedStep g aN aE p v w ∧
      dist p = some ((dp : ℕ∞)) ∧ dist v = some (((dp + w : ℕ) : ℕ∞))

/-- The full Dijkstra loop invariant, at the top of an iteration with the
given (unsorted) queue. -/
structure DijkInv (g : Graph) (aN : List NodeId) (aE : List EdgeRef)
    (start target : NodeId) (dist : NodeId → Option ℕ∞)
    (prev : NodeId → Option (Option NodeId)) (queue : List NodeId) : Prop where
  base : DState g aN aE start dist prev
  qnd : queue.Nodup
  qsub : ∀ v ∈ queue, v ∈ graphKeys g
  tq : target ∈ queue
  chainSettled : ∀ v p, prev v = some (some p) → p ∉ queue
  settledMin : ∀ u ∈ graphKeys g, u ∉ queue →
    ∀ c ∈ ReachCosts g aN aE start u, ((dist u).getD ⊤) ≤ c
  relaxed : ∀ u ∈ graphKeys g, u ∉ queue → ∀ v w,
    AllowedStep g aN aE u v w → v ∈ graphKeys g →
    ((dist v).getD ⊤) ≤ ((dist u).getD ⊤) + (w : ℕ∞)

/-! ## Helper lemmas -/

/-- Two strings with different first characters are different. -/
theorem stringNeOfHead (s t : String) (h : s.data.head? ≠ t.data.head?) :
    s ≠ t := by
  intro he
  exact h (by rw [he])

/-- At zero speed, the predicted future position of rule 5 coincides with
the current position, so the strict gap-decrease test fails. -/
theorem rule5Fires_speed_zero (me other : AGV) (cn nn : Node)
    (h : me.currentSpeed = 0) : ¬ rule5Fires me other cn nn := by
  rintro ⟨-, -, hlt⟩
  simp only [h, mul_zero, add_zero] at hlt
  exact lt_irrefl _ hlt

/-- If two strings agree, so do the first characters; a literal prefix
therefore separates concatenations from unrelated literals. -/
theorem strHeadNe (p x t : String) (c d : Char) (hc : p.data.head? = some c)
    (hd2 : t.data.head? = some d) (hne : c ≠ d) : (p ++ x) ≠ t := by
  intro h
  have h2 := congrArg (fun s => s.data.head?) h
  simp only [String.data_append] at h2
  rw [hd2] at h2
  cases hpd : p.data with
  | nil => rw [hpd] at hc; exact Option.noConfusion hc
  | cons a as =>
    rw [hpd, List.cons_append, List.head?_cons] at h2
    rw [hpd, List.head?_cons] at hc
    injection hc with e1
    injection h2 with e2
    subst e1
    subst e2
    exact hne rfl

/-- A fired rule other than rule 5 never reports the front-sensor reason:
the reason strings of rules 0-4 all start with a different character. -/
theorem checkAgainst_front_sensor (me other : AGV) (cn nn : Node)
    (res : TrafficCheckResult) (h : checkAgainst me other cn nn = some res)
    (hr : res.conflictReason = some "Front Sensor: Stop") :
    rule5Fires me other cn nn := by
  unfold checkAgainst at h
  split_ifs at h with h1 h2 h3 h4 h5 h6
  · injection h with h; subst h
    rw [Option.some.injEq] at hr
    exact absurd hr (strHeadNe _ _ _ 'H' 'F' rfl rfl (by decide))
  · injection h with h; subst h
    rw [Option.some.injEq, String.append_assoc] at hr
    exact absurd hr (strHeadNe _ _ _ 'D' 'F' rfl rfl (by decide))
  · injection h with h; subst h
    rw [Option.some.injEq, String.append_assoc] at hr
    exact absurd hr (strHeadNe _ _ _ 'Y' 'F' rfl rfl (by decide))
  · injection h with h; subst h
    rw [Option.some.injEq] at hr
    exact absurd hr (strHeadNe _ _ _ 'W' 'F' rfl rfl (by decide))
  · injection h with h; subst h
    rw [Option.some.injEq] at hr
    exact absurd hr (by decide)
  · exact h6

/-- If rule 5 fires for no vehicle, the per-vehicle loop never reports the
front-sensor reason. -/
theorem loopOthers_front_sensor (me : AGV) (cn nn : Node)
    (hno : ∀ other, ¬ rule5Fires me other cn nn) :
    ∀ l : List AGV, (loopOthers me cn nn l).conflictReason ≠ some "Front Sensor: Stop" := by
  intro l
  induction l with
  | nil => simp [loopOthers]
  | cons other rest ih =>
    rw [loopOthers]
    split_ifs with hid
    · exact ih
    · cases hca : checkAgainst me other cn nn with
      | none => simpa [hca] using ih
      | some r =>
        simp only [hca]
        intro hr
        exact hno other (checkAgainst_front_sensor me other cn nn r hca hr)

/-- Claim C10: with `currentSpeed = 0`, the front-sensor rule R5 never
fires — the predicted future position equals the current one, so the
strict inequality `futureDist < physDist` is false for every other AGV —
and consequently `checkTrafficRules` never returns the front-sensor WAIT
for a fully stopped vehicle. -/
theorem claim_C10_rule5_never_wait (ego : AGV) (h : ego.currentSpeed = 0) :
    (∀ (other : AGV) (cn nn : Node), ¬ rule5Fires ego other cn nn) ∧
    ∀ (allAgvs : List AGV) (cn nn : Node),
      (checkTrafficRules ego allAgvs cn nn).conflictReason ≠
        some "Front Sensor: Stop" := by
  have hno : ∀ (other : AGV) (cn nn : Node), ¬ rule5Fires ego other cn nn :=
    fun other cn nn => rule5Fires_speed_zero ego other cn nn h
  refine ⟨hno, fun allAgvs cn nn => ?_⟩
  unfold checkTrafficRules
  cases hp : ego.path with
  | nil => exact loopOthers_front_sensor ego cn nn (hno · cn nn) allAgvs
  | cons myNextNode rest =>
    split_ifs with h05
    · cases hfind : allAgvs.find? (fun other =>
          other.id != ego.id && other.reservedNodes.contains myNextNode) with
      | none =>
        simp only [hfind]
        exact loopOthers_front_sensor ego cn nn (hno · cn nn) allAgvs
      | some reservingAgv =>
        simp only [hfind]
        intro hr
        rw [Option.some.injEq, String.append_assoc] at hr
        exact absurd hr (strHeadNe _ _ _ 'N' 'F' rfl rfl (by decide))
    · exact loopOthers_front_sensor ego cn nn (hno · cn nn) allAgvs

/-- Witness for C10 at a concrete stopped vehicle. -/
theorem claim_C10_witness :
    ¬ rule5Fires agvBase agvBase nodeA nodeB ∧
    (checkTrafficRules agvBase [] nodeA nodeB).conflictReason ≠
      some "Front Sensor: Stop" :=
  ⟨(claim_C10_rule5_never_wait agvBase rfl).1 agvBase nodeA nodeB,
   (claim_C10_rule5_never_wait agvBase rfl).2 [] nodeA nodeB⟩

/-- Claim C9: on a map with no nodes, `spawnAgv` indexes an empty array,
obtains `undefined`, and crashes reading `startNode.x` (modelled `none`);
the crash happens before `setAgvs`, so no fleet update is committed.
There is no tagged "empty map" error anywhere in the code. -/
theorem claim_C9_spawn_empty_map (agvs : List AGV) (cfg : FleetConfig)
    (amb : SpawnAmbient) :
    spawnAgv ⟨[], []⟩ agvs cfg amb = none ∧
    spawnAgvFleet ⟨[], []⟩ agvs cfg amb = none := by
  have h1 : spawnAgv ⟨[], []⟩ agvs cfg amb = none := by
    unfold spawnAgv jsIndex
    simp
  exact ⟨h1, by unfold spawnAgvFleet; rw [h1]; rfl⟩

/-- When the auto-pilot branch does not fire, a vehicle with no target (or
an empty path) is reclassified IDLE by the next tick, with everything
except speed, wait timer, and reservations untouched (part_001, lines
170-173). -/
theorem updateAgvStep_no_target_general (randomMoveMode : Bool) (amb : Ambient)
    (mapData : MapData) (graph : Graph) (prevAgvs : List AGV) (agv : AGV)
    (hauto : (if randomMoveMode then autoPilotStep amb mapData graph prevAgvs agv
      else none) = none)
    (h : agv.targetNode = none ∨ agv.path = []) :
    updateAgvStep randomMoveMode amb mapData graph prevAgvs agv =
      { agv with
        status := .IDLE,
        currentSpeed := max 0 (agv.currentSpeed - agv.deceleration),
        waitTimer := 0, reservedNodes := [] } := by
  unfold updateAgvStep
  rw [hauto]
  rcases h with h | h
  · rw [h]
  · rw [h]
    cases agv.targetNode <;> rfl

/-- Special case of `updateAgvStep_no_target_general` with the auto-pilot
switched off. -/
theorem updateAgvStep_no_target (amb : Ambient) (mapData : MapData)
    (graph : Graph) (prevAgvs : List AGV) (agv : AGV)
    (h : agv.targetNode = none ∨ agv.path = []) :
    updateAgvStep false amb mapData graph prevAgvs agv =
      { agv with
        status := .IDLE,
        currentSpeed := max 0 (agv.currentSpeed - agv.deceleration),
        waitTimer := 0, reservedNodes := [] } :=
  updateAgvStep_no_target_general false amb mapData graph prevAgvs agv rfl h

/-- Claim C6 counterexample: a COMPLETED vehicle does not stay COMPLETED;
the very next tick (no `setTarget` in between, auto-pilot off) reclassifies
it IDLE through the no-target branch. -/
theorem claim_C6_counterexample :
    agvCompleted.status = .COMPLETED ∧
    (updateAgvStep false amb0 mapAB graphAB [agvCompleted] agvCompleted).status
      = .IDLE ∧
    AGVStatus.IDLE ≠ AGVStatus.COMPLETED := by
  refine ⟨rfl, ?_, by decide⟩
  rw [updateAgvStep_no_target amb0 mapAB graphAB [agvCompleted] agvCompleted
    (Or.inl rfl)]

/-- Claim C6, amended: COMPLETED is not absorbing — the next tick turns it
into IDLE — but an arrived vehicle stays put: with the auto-pilot off and
no new target, every later tick keeps it IDLE, stationary, with its target
and path unchanged. -/
theorem claim_C6_amended (mapData : MapData) (graph : Graph) (agv : AGV)
    (h : agv.targetNode = none ∨ agv.path = []) :
    (∀ (amb : Ambient) (prevAgvs : List AGV),
      (updateAgvStep false amb mapData graph prevAgvs agv).status = .IDLE ∧
      (updateAgvStep false amb mapData graph prevAgvs agv).targetNode = agv.targetNode ∧
      (updateAgvStep false amb mapData graph prevAgvs agv).path = agv.path ∧
      (updateAgvStep false amb mapData graph prevAgvs agv).x = agv.x ∧
      (updateAgvStep false amb mapData graph prevAgvs agv).y = agv.y) ∧
    ∀ (ambs : ℕ → ℕ → Ambient) (n : ℕ), 1 ≤ n →
      ∀ r ∈ iterateTick false ambs mapData graph n [agv],
        r.status = .IDLE ∧ r.x = agv.x ∧ r.y = agv.y := by
  constructor
  · intro amb prevAgvs
    rw [updateAgvStep_no_target amb mapData graph prevAgvs agv h]
    exact ⟨rfl, rfl, rfl, rfl, rfl⟩
  · -- the no-target branch preserves the hypothesis, position, and target,
    -- so the iterate stays IDLE from the first tick on
    have key : ∀ (n : ℕ) (ambs : ℕ → ℕ → Ambient) (b : AGV),
        (b.targetNode = none ∨ b.path = []) → b.status = .IDLE →
        b.x = agv.x → b.y = agv.y →
        ∀ r ∈ iterateTick false ambs mapData graph n [b],
          r.status = .IDLE ∧ r.x = agv.x ∧ r.y = agv.y := by
      intro n
      induction n with
      | zero =>
        intro ambs b hb hs hx hy r hr
        rw [iterateTick] at hr
        simp only [List.mem_singleton] at hr
        exact hr ▸ ⟨hs, hx, hy⟩
      | succ m ih =>
        intro ambs b hb hs hx hy r hr
        rw [iterateTick] at hr
        have hsim : updateSimulation false (ambs 0) mapData graph [b] =
            [updateAgvStep false (ambs 0 0) mapData graph [b] b] := by
          simp [updateSimulation]
        rw [hsim, updateAgvStep_no_target (ambs 0 0) mapData graph [b] b hb] at hr
        exact ih (fun k => ambs (k + 1))
          { b with
            status := .IDLE,
            currentSpeed := max 0 (b.currentSpeed - b.deceleration),
            waitTimer := 0, reservedNodes := [] } hb rfl hx hy r hr
    intro ambs n hn r hr
    cases n with
    | zero => omega
    | succ m =>
      rw [iterateTick] at hr
      have hsim : updateSimulation false (ambs 0) mapData graph [agv] =
          [updateAgvStep false (ambs 0 0) mapData graph [agv] agv] := by
        simp [updateSimulation]
      rw [hsim, updateAgvStep_no_target (ambs 0 0) mapData graph [agv] agv h] at hr
      exact key m (fun k => ambs (k + 1))
        { agv with
          status := .IDLE,
          currentSpeed := max 0 (agv.currentSpeed - agv.deceleration),
          waitTimer := 0, reservedNodes := [] } h rfl rfl rfl r hr

/-- Witness for the amended C6 at the concrete COMPLETED vehicle: two
ticks later it is IDLE and still at node B's position. -/
theorem claim_C6_witness :
    (updateAgvStep false amb0 mapAB graphAB [agvCompleted] agvCompleted).status
      = .IDLE ∧
    ∀ r ∈ iterateTick false (fun _ _ => amb0) mapAB graphAB 2 [agvCompleted],
      r.status = .IDLE ∧ r.x = agvCompleted.x ∧ r.y = agvCompleted.y :=
  ⟨((claim_C6_amended mapAB graphAB agvCompleted (Or.inl rfl)).1 amb0 [agvCompleted]).1,
   (claim_C6_amended mapAB graphAB agvCompleted (Or.inl rfl)).2
     (fun _ _ => amb0) 2 (by norm_num)⟩

/-- For a draw of exactly 0, the JavaScript random index picks the head. -/
theorem jsIndex_zero {α : Type} (l : List α) : jsIndex l 0 = l.get? 0 := by
  unfold jsIndex
  norm_num

/-- A draw in `[0, 1)` on a nonempty list always yields an element. -/
theorem jsIndex_isSome {α : Type} (l : List α) (r : ℝ) (h0 : 0 ≤ r) (h1 : r < 1)
    (hl : 0 < l.length) : ∃ a, jsIndex l r = some a := by
  unfold jsIndex
  have hlen : (0 : ℝ) < l.length := by exact_mod_cast hl
  have hge : (0 : ℤ) ≤ ⌊r * l.length⌋ :=
    Int.floor_nonneg.2 (mul_nonneg h0 hlen.le)
  have hlt : ⌊r * l.length⌋ < (l.length : ℤ) := by
    rw [Int.floor_lt]
    push_cast
    calc r * l.length < 1 * l.length := by
          exact mul_lt_mul_of_pos_right h1 hlen
      _ = l.length := one_mul _
  have htn : (⌊r * l.length⌋).toNat < l.length := by omega
  refine ⟨l.get ⟨(⌊r * l.length⌋).toNat, htn⟩, ?_⟩
  rw [if_pos hge]
  exact List.get?_eq_get htn

/-- When an IDLE/COMPLETED vehicle is slow enough, candidates exist, the
index draw is in range, and the Bernoulli draw is below 0.05, the
auto-pilot branch fires and produces a PLANNING vehicle. -/
theorem autoPilotStep_fires (amb : Ambient) (mapData : MapData) (graph : Graph)
    (prevAgvs : List AGV) (agv : AGV)
    (hst : agv.status = .IDLE ∨ agv.status = .COMPLETED)
    (hsp : agv.currentSpeed < 0.1) (hr1 : amb.rand1 < 0.05)
    (hr2a : 0 ≤ amb.rand2) (hr2b : amb.rand2 < 1)
    (hpt : 0 < (mapData.nodes.filter (fun n =>
      n.id != agv.currentNode &&
        !((((prevAgvs.filter (fun a => a.id != agv.id && a.targetNode.isSome)).filterMap
          (fun a => a.targetNode))).contains n.id))).length) :
    ∃ b, autoPilotStep amb mapData graph prevAgvs agv = some b ∧
      b.status = .PLANNING := by
  unfold autoPilotStep
  rw [if_pos ⟨hst, hsp⟩, if_pos hr1]
  dsimp only
  rw [if_pos hpt]
  obtain ⟨t, ht⟩ := jsIndex_isSome _ amb.rand2 hr2a hr2b hpt
  rw [ht]
  exact ⟨_, rfl, rfl⟩

/-- When the Bernoulli draw is at or above 0.05, the auto-pilot branch
falls through. -/
theorem autoPilotStep_high (amb : Ambient) (mapData : MapData) (graph : Graph)
    (prevAgvs : List AGV) (agv : AGV) (hr1 : ¬ amb.rand1 < 0.05) :
    autoPilotStep amb mapData graph prevAgvs agv = none := by
  unfold autoPilotStep
  split_ifs <;> rfl

/-- Claim C1 counterexample: with the seed, map, fleet, and command trace
all fixed, two runs that differ only in the ambient `Math.random()` value
produce different vehicles — the auto-pilot decision reads ambient
randomness (`Math.random`), not an engine-seeded PRNG, so the snapshot
sequence is not a function of seed, fleet, and commands alone. -/
theorem claim_C1_counterexample :
    ambLow.rand2 = ambHigh.rand2 ∧ ambLow.now = ambHigh.now ∧
    (updateAgvStep true ambLow mapAB graphAB [agvBase] agvBase).status
      = .PLANNING ∧
    (updateAgvStep true ambHigh mapAB graphAB [agvBase] agvBase).status
      = .IDLE ∧
    AGVStatus.PLANNING ≠ AGVStatus.IDLE := by
  refine ⟨rfl, rfl, ?_, ?_, by decide⟩
  · obtain ⟨b, hb, hbs⟩ := autoPilotStep_fires ambLow mapAB graphAB [agvBase]
      agvBase (Or.inl rfl) (by norm_num [agvBase]) (by norm_num [ambLow])
      (by norm_num [ambLow]) (by norm_num [ambLow]) (by decide)
    unfold updateAgvStep
    rw [if_pos rfl, hb]
    exact hbs
  · have hap := autoPilotStep_high ambHigh mapAB graphAB [agvBase] agvBase
      (by norm_num [ambHigh])
    rw [updateAgvStep_no_target_general true ambHigh mapAB graphAB [agvBase]
      agvBase (by rw [if_pos rfl, hap]) (Or.inl rfl)]

/-- Claim C1, amended: the per-tick update is a pure function of the state
together with the ambient `Math.random()`/`Date.now()` inputs — holding
those fixed, runs coincide — and the auto-pilot's decision to request a
target is exactly the test `Math.random() < 0.05` on the ambient draw, so
reproducibility requires fixing the ambient stream, not just the seed. -/
theorem claim_C1_amended (amb : Ambient) (mapData : MapData) (graph : Graph)
    (prevAgvs : List AGV) (agv : AGV)
    (hst : agv.status = .IDLE ∨ agv.status = .COMPLETED)
    (hsp : agv.currentSpeed < 0.1) (htgt : agv.targetNode = none)
    (hr2a : 0 ≤ amb.rand2) (hr2b : amb.rand2 < 1)
    (hpt : 0 < (mapData.nodes.filter (fun n =>
      n.id != agv.currentNode &&
        !((((prevAgvs.filter (fun a => a.id != agv.id && a.targetNode.isSome)).filterMap
          (fun a => a.targetNode))).contains n.id))).length) :
    ((updateAgvStep true amb mapData graph prevAgvs agv).status = .PLANNING
      ↔ amb.rand1 < 0.05) ∧
    ∀ (rm : Bool) (ambs1 ambs2 : ℕ → ℕ → Ambient) (md : MapData) (g : Graph)
      (fleet : List AGV) (n : ℕ), (∀ i j, ambs1 i j = ambs2 i j) →
      iterateTick rm ambs1 md g n fleet = iterateTick rm ambs2 md g n fleet := by
  constructor
  · by_cases hr : amb.rand1 < 0.05
    · obtain ⟨b, hb, hbs⟩ := autoPilotStep_fires amb mapData graph prevAgvs agv
        hst hsp hr hr2a hr2b hpt
      have : (updateAgvStep true amb mapData graph prevAgvs agv).status
          = .PLANNING := by
        unfold updateAgvStep
        rw [if_pos rfl, hb]
        exact hbs
      simp [this, hr]
    · have hap := autoPilotStep_high amb mapData graph prevAgvs agv hr
      rw [updateAgvStep_no_target_general true amb mapData graph prevAgvs agv
        (by rw [if_pos rfl, hap]) (Or.inl htgt)]
      simpa using hr
  · intro rm ambs1 ambs2 md g fleet n h
    have : ambs1 = ambs2 := funext fun i => funext fun j => h i j
    rw [this]

/-- Witness for the amended C1 at the concrete idle vehicle and low draw. -/
theorem claim_C1_witness :
    ((updateAgvStep true ambLow mapAB graphAB [agvBase] agvBase).status
      = .PLANNING ↔ ambLow.rand1 < 0.05) ∧
    ∀ (rm : Bool) (ambs1 ambs2 : ℕ → ℕ → Ambient) (md : MapData) (g : Graph)
      (fleet : List AGV) (n : ℕ), (∀ i j, ambs1 i j = ambs2 i j) →
      iterateTick rm ambs1 md g n fleet = iterateTick rm ambs2 md g n fleet :=
  claim_C1_amended ambLow mapAB graphAB [agvBase] agvBase (Or.inl rfl)
    (by norm_num [agvBase]) rfl (by norm_num [ambLow]) (by norm_num [ambLow])
    (by decide)

/-- Claim C8 counterexample: clicking an unreachable target leaves the
vehicle in PLANNING (not IDLE), with `waitReason` null (not "no path") and
the unreachable target recorded; no `NoPath` value is produced anywhere. -/
theorem claim_C8_counterexample :
    findPath "A" "E" graphDisc [] [] = [] ∧
    (handleNodeClickUpdate graphDisc "E" agvBase).status = .PLANNING ∧
    (handleNodeClickUpdate graphDisc "E" agvBase).waitReason = none ∧
    (handleNodeClickUpdate graphDisc "E" agvBase).targetNode = some "E" ∧
    AGVStatus.PLANNING ≠ AGVStatus.IDLE := by
  exact ⟨by decide, rfl, rfl, rfl, by decide⟩

/-- Claim C8, amended: `handleNodeClick` with an unreachable target returns
no error value; it puts the vehicle in PLANNING with an empty path, the
target set, and `waitReason` cleared to null, and the next tick's no-target
branch reclassifies it IDLE (path still empty). -/
theorem claim_C8_amended (graph : Graph) (nodeId : NodeId) (agv : AGV)
    (hpath : agv.path = [])
    (hfp : findPath agv.currentNode nodeId graph [] [] = []) :
    (handleNodeClickUpdate graph nodeId agv).status = .PLANNING ∧
    (handleNodeClickUpdate graph nodeId agv).path = [] ∧
    (handleNodeClickUpdate graph nodeId agv).targetNode = some nodeId ∧
    (handleNodeClickUpdate graph nodeId agv).waitReason = none ∧
    ∀ (rm : Bool) (amb : Ambient) (md : MapData) (g2 : Graph) (prev : List AGV),
      (if rm then autoPilotStep amb md g2 prev
          (handleNodeClickUpdate graph nodeId agv) else none) = none →
      (updateAgvStep rm amb md g2 prev (handleNodeClickUpdate graph nodeId agv)).status
        = .IDLE ∧
      (updateAgvStep rm amb md g2 prev (handleNodeClickUpdate graph nodeId agv)).path
        = [] := by
  have hr : handleNodeClickUpdate graph nodeId agv =
      { agv with
        targetNode := some nodeId, path := [], status := .PLANNING,
        waitTimer := 0, waitReason := none, retryCount := 0, pathRank := 0,
        reservedNodes := [] } := by
    unfold handleNodeClickUpdate
    rw [hpath]
    dsimp only
    rw [hfp]
    simp
  refine ⟨by rw [hr], by rw [hr], by rw [hr], by rw [hr], ?_⟩
  intro rm amb md g2 prev hauto
  have hempty : (handleNodeClickUpdate graph nodeId agv).path = [] := by rw [hr]
  rw [updateAgvStep_no_target_general rm amb md g2 prev _ hauto (Or.inr hempty)]
  exact ⟨rfl, hempty⟩

/-- Witness for the amended C8 on the two-component map. -/
theorem claim_C8_witness :
    (handleNodeClickUpdate graphDisc "E" agvBase).status = .PLANNING ∧
    (handleNodeClickUpdate graphDisc "E" agvBase).path = [] ∧
    (handleNodeClickUpdate graphDisc "E" agvBase).targetNode = some "E" ∧
    (handleNodeClickUpdate graphDisc "E" agvBase).waitReason = none ∧
    ∀ (rm : Bool) (amb : Ambient) (md : MapData) (g2 : Graph) (prev : List AGV),
      (if rm then autoPilotStep amb md g2 prev
          (handleNodeClickUpdate graphDisc "E" agvBase) else none) = none →
      (updateAgvStep rm amb md g2 prev (handleNodeClickUpdate graphDisc "E" agvBase)).status
        = .IDLE ∧
      (updateAgvStep rm amb md g2 prev (handleNodeClickUpdate graphDisc "E" agvBase)).path
        = [] :=
  claim_C8_amended graphDisc "E" agvBase rfl (by decide)

/-- Scanning the fleet, the first vehicle for which some rule fires
determines the verdict: vehicles before it either are the ego itself or
fire no rule. -/
theorem loopOthers_first_hit (me : AGV) (cn nn : Node) (pre : List AGV)
    (post : List AGV) (b : AGV) (r : TrafficCheckResult)
    (hpre : ∀ o ∈ pre, o.id = me.id ∨ checkAgainst me o cn nn = none)
    (hb : b.id ≠ me.id) (hbr : checkAgainst me b cn nn = some r) :
    loopOthers me cn nn (pre ++ b :: post) = r := by
  induction pre with
  | nil =>
    rw [List.nil_append, loopOthers, if_neg hb, hbr]
  | cons o rest ih =>
    rw [List.cons_append, loopOthers]
    rcases hpre o (List.mem_cons_self o rest) with ho | ho
    · rw [if_pos ho]
      exact ih fun o' ho' => hpre o' (List.mem_cons_of_mem o ho')
    · split_ifs with hid
      · exact ih fun o' ho' => hpre o' (List.mem_cons_of_mem o ho')
      · rw [ho]
        exact ih fun o' ho' => hpre o' (List.mem_cons_of_mem o ho')

/-- Claim C2, amended: `checkTrafficRules` evaluates the reservation rule
R0 first against the whole fleet; after that the rules R1-R5 are evaluated
per vehicle, scanning the fleet in order, and the verdict is that of the
first (vehicle, rule) hit in lexicographic (fleet position, rule number)
order — not the first rule in global rule order. -/
theorem claim_C2_amended (me : AGV) (cn nn : Node) (pre : List AGV)
    (post : List AGV) (b : AGV) (r : TrafficCheckResult)
    (hR0 : ∀ myNext tail, me.path = myNext :: tail → me.progress < 0.05 →
      (pre ++ b :: post).find? (fun other =>
        other.id != me.id && other.reservedNodes.contains myNext) = none)
    (hpre : ∀ o ∈ pre, o.id = me.id ∨ checkAgainst me o cn nn = none)
    (hb : b.id ≠ me.id) (hbr : checkAgainst me b cn nn = some r) :
    checkTrafficRules me (pre ++ b :: post) cn nn = r := by
  unfold checkTrafficRules
  cases hp : me.path with
  | nil => exact loopOthers_first_hit me cn nn pre post b r hpre hb hbr
  | cons myNext tail =>
    dsimp only
    split_ifs with h05
    · rw [hR0 myNext tail hp h05]
      exact loopOthers_first_hit me cn nn pre post b r hpre hb hbr
    · exact loopOthers_first_hit me cn nn pre post b r hpre hb hbr

/-- Claim C2 counterexample: vehicle `aStat` (fleet position 0) satisfies
only rule R2a, vehicle `aHead` (fleet position 1) satisfies the head-on
rule R1; the verdict is R2a's WAIT, not REPATH_HEAD_ON, so a later-listed
vehicle's R1 does not preempt an earlier-listed vehicle's later-numbered
rule. -/
theorem claim_C2_counterexample :
    rule1Fires egoC2 aHead ∧
    (checkTrafficRules egoC2 [aStat, aHead] nodeA nodeB).action = .WAIT ∧
    (checkTrafficRules egoC2 [aStat, aHead] nodeA nodeB).action ≠
      .REPATH_HEAD_ON := by
  have h1 : rule1Fires egoC2 aHead := ⟨rfl, rfl⟩
  have hnr1 : ¬ rule1Fires egoC2 aStat := by
    rintro ⟨-, h2⟩
    exact absurd h2 (by decide)
  have h05 : egoC2.progress < 0.05 := by
    show (0 : ℝ) < 0.05
    norm_num
  have h2a : rule2aFires egoC2 aStat := by
    refine ⟨rfl, ?_⟩
    show (0 : ℝ) < 0.05
    norm_num
  have hbr : checkAgainst egoC2 aStat nodeA nodeB =
      some ⟨.WAIT, some ("Dest " ++ showOpt egoC2.path.head? ++ " Occupied"),
        none, some aStat.id⟩ := by
    unfold checkAgainst
    rw [if_neg hnr1, if_pos ⟨h05, h2a⟩]
  have hcr : checkTrafficRules egoC2 [aStat, aHead] nodeA nodeB =
      ⟨.WAIT, some ("Dest " ++ showOpt egoC2.path.head? ++ " Occupied"),
        none, some aStat.id⟩ := by
    have := claim_C2_amended egoC2 nodeA nodeB [] [aHead] aStat
      ⟨.WAIT, some ("Dest " ++ showOpt egoC2.path.head? ++ " Occupied"),
        none, some aStat.id⟩
      (fun myNext tail hp _ => by
        injection hp with h1 h2
        subst h1
        rfl)
      (fun o ho => absurd ho (List.not_mem_nil o))
      (by decide) hbr
    simpa using this
  rw [hcr]
  exact ⟨h1, rfl, by decide⟩

/-- Witness for the amended C2: the ego itself heads the fleet list (it is
skipped by the id test), and the head-on vehicle `aHead` is the first hit,
so its R1 verdict is returned. -/
theorem claim_C2_witness :
    checkTrafficRules egoC2 [egoC2, aHead] nodeA nodeB =
      ⟨.REPATH_HEAD_ON, some ("Head-on w/ AGV-" ++ last4 aHead.id),
        some ⟨"A", "B"⟩, some aHead.id⟩ := by
  have hbr : checkAgainst egoC2 aHead nodeA nodeB =
      some ⟨.REPATH_HEAD_ON, some ("Head-on w/ AGV-" ++ last4 aHead.id),
        some ⟨"A", "B"⟩, some aHead.id⟩ := by
    have h1 : rule1Fires egoC2 aHead := ⟨rfl, rfl⟩
    unfold checkAgainst
    rw [if_pos h1]
    rfl
  have := claim_C2_amended egoC2 nodeA nodeB [egoC2] [] aHead
    ⟨.REPATH_HEAD_ON, some ("Head-on w/ AGV-" ++ last4 aHead.id),
      some ⟨"A", "B"⟩, some aHead.id⟩
    (fun myNext tail hp _ => by
      injection hp with h1 h2
      subst h1
      rfl)
    (fun o ho => by
      rw [List.mem_singleton] at ho
      exact Or.inl (by rw [ho]))
    (by decide) hbr
  simpa using this

/-- When the auto-pilot does not fire, the vehicle has a target and a
nonempty path, both node lookups succeed, and the arbiter says WAIT, the
tick is exactly the factored-out WAIT branch. -/
theorem updateAgvStep_wait (rm : Bool) (amb : Ambient) (md : MapData)
    (g : Graph) (prev : List AGV) (agv : AGV) (tgt nextNodeId : NodeId)
    (restPath : List NodeId) (cn nn : Node)
    (hauto : (if rm then autoPilotStep amb md g prev agv else none) = none)
    (htgt : agv.targetNode = some tgt)
    (hpath : agv.path = nextNodeId :: restPath)
    (hcn : md.nodes.find? (fun n => n.id == agv.currentNode) = some cn)
    (hnn : md.nodes.find? (fun n => n.id == nextNodeId) = some nn)
    (hact : (checkTrafficRules
      { agv with reservedNodes := List.take agv.hardBorrowLength agv.path }
      prev cn nn).action = .WAIT) :
    updateAgvStep rm amb md g prev agv =
      waitBranchUpdate g prev agv tgt nextNodeId
        (Real.sqrt ((nn.x - cn.x) * (nn.x - cn.x) + (nn.y - cn.y) * (nn.y - cn.y)))
        (checkTrafficRules
          { agv with reservedNodes := List.take agv.hardBorrowLength agv.path }
          prev cn nn) := by
  unfold updateAgvStep
  rw [hauto]
  dsimp only
  split
  next tgt2 nid2 rest2 heq1 heq2 =>
    rw [htgt] at heq1
    rw [hpath] at heq2
    injection heq1 with heq1
    injection heq2 with heq2a heq2b
    subst heq1
    subst heq2a
    rw [hcn, hnn]
    dsimp only
    rw [if_neg (fun h => by rw [hact] at h; exact absurd h (by decide)),
      if_pos hact]
    unfold waitBranchUpdate
    rfl
  next h =>
    exact absurd htgt (by
      intro hc
      exact h tgt nextNodeId restPath hc hpath)

/-- Concrete arbiter evaluation for the ranked-retry scenario: the ego at
A (progress 0, next node B) sees the idle occupant of B and receives the
R2a WAIT verdict naming the occupant as blocker. -/
theorem egoWait_arbiter_eval :
    checkTrafficRules
      { egoWait with reservedNodes := List.take egoWait.hardBorrowLength egoWait.path }
      [egoWait, blockerIdle] nodeA nodeB =
      ⟨.WAIT, some ("Dest " ++ showOpt (egoWait.path.head?) ++ " Occupied"),
        none, some blockerIdle.id⟩ := by
  unfold checkTrafficRules
  rw [show egoWait.path = "B" :: [] from rfl]
  dsimp only
  rw [if_pos (show egoWait.progress < 0.05 by
    show (0 : ℝ) < 0.05
    norm_num)]
  rw [show List.find? (fun other =>
      other.id != egoWait.id && other.reservedNodes.contains "B")
      [egoWait, blockerIdle] = none from rfl]
  dsimp only
  rw [loopOthers, if_pos rfl, loopOthers]
  rw [if_neg (show ¬ blockerIdle.id = egoWait.id by decide)]
  unfold checkAgainst
  rw [if_neg (by
    rintro ⟨-, h2⟩
    exact absurd h2 (by decide))]
  rw [if_pos (by exact ⟨by norm_num [egoWait, agvBase], rfl,
    by norm_num [blockerIdle, agvBase]⟩)]
  rfl

/-- In every branch of the WAIT handler — step-back, ranked detour found
(mid-edge or at a node), or no detour — `pathRank` is either reset to 0 or
left untouched; it is never incremented. -/
theorem waitBranchUpdate_pathRank (g : Graph) (prev : List AGV) (agv : AGV)
    (tgt nextNodeId : NodeId) (d : ℝ) (r : TrafficCheckResult) :
    (waitBranchUpdate g prev agv tgt nextNodeId d r).pathRank = 0 ∨
    (waitBranchUpdate g prev agv tgt nextNodeId d r).pathRank = agv.pathRank := by
  unfold waitBranchUpdate
  dsimp only
  repeat' split
  all_goals first | exact Or.inl rfl | exact Or.inr rfl

/-- Claim C5, amended: when the arbiter says WAIT, the tick never advances
`pathRank` — on a successful ranked detour it resets `pathRank` to 0, and
in every other branch (step-back, failed detour, still counting) it leaves
it unchanged; in particular it never becomes `pathRank + 1`. -/
theorem claim_C5_amended (rm : Bool) (amb : Ambient) (md : MapData)
    (g : Graph) (prev : List AGV) (agv : AGV) (tgt nextNodeId : NodeId)
    (restPath : List NodeId) (cn nn : Node)
    (hauto : (if rm then autoPilotStep amb md g prev agv else none) = none)
    (htgt : agv.targetNode = some tgt)
    (hpath : agv.path = nextNodeId :: restPath)
    (hcn : md.nodes.find? (fun n => n.id == agv.currentNode) = some cn)
    (hnn : md.nodes.find? (fun n => n.id == nextNodeId) = some nn)
    (hact : (checkTrafficRules
      { agv with reservedNodes := List.take agv.hardBorrowLength agv.path }
      prev cn nn).action = .WAIT) :
    ((updateAgvStep rm amb md g prev agv).pathRank = 0 ∨
      (updateAgvStep rm amb md g prev agv).pathRank = agv.pathRank) ∧
    (updateAgvStep rm amb md g prev agv).pathRank ≠ agv.pathRank + 1 := by
  rw [updateAgvStep_wait rm amb md g prev agv tgt nextNodeId restPath cn nn
    hauto htgt hpath hcn hnn hact]
  refine ⟨waitBranchUpdate_pathRank g prev agv tgt nextNodeId _ _, ?_⟩
  rcases waitBranchUpdate_pathRank g prev agv tgt nextNodeId
    (Real.sqrt ((nn.x - cn.x) * (nn.x - cn.x) + (nn.y - cn.y) * (nn.y - cn.y)))
    (checkTrafficRules
      { agv with reservedNodes := List.take agv.hardBorrowLength agv.path }
      prev cn nn) with h | h <;> rw [h] <;> omega

/-- The full ranked-retry evaluation at the concrete scenario: blocker
idle (no step-back), detour found, vehicle at a node (progress 0). -/
theorem egoWait_ranked_retry_eval (d : ℝ) :
    waitBranchUpdate graph4 [egoWait, blockerIdle] egoWait "C" "B" d
      ⟨.WAIT, some ("Dest " ++ showOpt (egoWait.path.head?) ++ " Occupied"),
        none, some blockerIdle.id⟩ =
      { egoWait with
        path := findPath "A" "C" graph4 ["B"] [],
        status := .DETOUR, waitTimer := 0, retryCount := 0, pathRank := 0,
        currentSpeed := 0,
        reservedNodes := (findPath "A" "C" graph4 ["B"] []).take
          egoWait.hardBorrowLength } := by
  unfold waitBranchUpdate
  dsimp only
  rw [if_pos (by decide : egoWait.waitTimer + 1 > RETRY_INTERVAL)]
  rw [if_neg (by
    rintro ⟨-, hw⟩
    exact (by decide : ¬ (blockerIdle.status = .WAITING ∨
      blockerIdle.status = .BLOCKED)) hw)]
  rw [if_pos (by decide : (findPath egoWait.currentNode "C" graph4 ["B"] []).length > 0)]
  rw [if_neg (show ¬ egoWait.progress > 0 by
    show ¬ (0 : ℝ) > 0
    norm_num)]
  rfl

/-- Claim C5 counterexample: the WAITING vehicle at A crosses the retry
threshold with `retryCount` reaching 3 and the blocker not WAITING (so no
step-back); the ranked detour is taken, yet `pathRank` is reset to 0, not
advanced to `pathRank + 1`. -/
theorem claim_C5_counterexample :
    egoWait.waitTimer + 1 > RETRY_INTERVAL ∧
    egoWait.retryCount + 1 = 3 ∧
    (updateAgvStep false amb0 map4 graph4 [egoWait, blockerIdle] egoWait).status
      = .DETOUR ∧
    (updateAgvStep false amb0 map4 graph4 [egoWait, blockerIdle] egoWait).pathRank
      = 0 ∧
    (updateAgvStep false amb0 map4 graph4 [egoWait, blockerIdle] egoWait).pathRank
      ≠ egoWait.pathRank + 1 := by
  have heq := updateAgvStep_wait false amb0 map4 graph4 [egoWait, blockerIdle]
    egoWait "C" "B" [] nodeA nodeB rfl rfl rfl rfl rfl
    (by rw [egoWait_arbiter_eval])
  rw [heq, egoWait_arbiter_eval, egoWait_ranked_retry_eval]
  refine ⟨by decide, by decide, rfl, rfl, by decide⟩

/-- Witness for the amended C5 at the concrete ranked-retry scenario. -/
theorem claim_C5_witness :
    ((updateAgvStep false amb0 map4 graph4 [egoWait, blockerIdle] egoWait).pathRank
      = 0 ∨
     (updateAgvStep false amb0 map4 graph4 [egoWait, blockerIdle] egoWait).pathRank
      = egoWait.pathRank) ∧
    (updateAgvStep false amb0 map4 graph4 [egoWait, blockerIdle] egoWait).pathRank
      ≠ egoWait.pathRank + 1 :=
  claim_C5_amended false amb0 map4 graph4 [egoWait, blockerIdle] egoWait
    "C" "B" [] nodeA nodeB rfl rfl rfl rfl rfl (by rw [egoWait_arbiter_eval])

/-- When the arbiter reports a head-on and the vehicle is at least 5% down
the edge and a detour exists, the tick performs the turn-on-edge
construction (part_001, lines 209-222). -/
theorem updateAgvStep_repath_midedge (rm : Bool) (amb : Ambient)
    (md : MapData) (g : Graph) (prev : List AGV) (agv : AGV)
    (tgt nextNodeId : NodeId) (restPath : List NodeId) (cn nn : Node)
    (hauto : (if rm then autoPilotStep amb md g prev agv else none) = none)
    (htgt : agv.targetNode = some tgt)
    (hpath : agv.path = nextNodeId :: restPath)
    (hcn : md.nodes.find? (fun n => n.id == agv.currentNode) = some cn)
    (hnn : md.nodes.find? (fun n => n.id == nextNodeId) = some nn)
    (hact : (checkTrafficRules
      { agv with reservedNodes := List.take agv.hardBorrowLength agv.path }
      prev cn nn).action = .REPATH_HEAD_ON)
    (hdetour : (findPath agv.currentNode tgt g []
      (match (checkTrafficRules
        { agv with reservedNodes := List.take agv.hardBorrowLength agv.path }
        prev cn nn).avoidData with
        | some e => [e]
        | none => [])).length > 0)
    (hprog : ¬ agv.progress < 0.05) :
    updateAgvStep rm amb md g prev agv =
      { agv with
        currentNode := nextNodeId,
        path := agv.currentNode :: findPath agv.currentNode tgt g []
          (match (checkTrafficRules
            { agv with reservedNodes := List.take agv.hardBorrowLength agv.path }
            prev cn nn).avoidData with
            | some e => [e]
            | none => []),
        progress := 1 - agv.progress,
        progressDistance :=
          Real.sqrt ((nn.x - cn.x) * (nn.x - cn.x) + (nn.y - cn.y) * (nn.y - cn.y))
            * (1 - agv.progress),
        status := .REPATHING, waitTimer := 0, currentSpeed := 0,
        pathRank := 0,
        reservedNodes := List.take agv.hardBorrowLength
          (findPath agv.currentNode tgt g []
          (match (checkTrafficRules
            { agv with reservedNodes := List.take agv.hardBorrowLength agv.path }
            prev cn nn).avoidData with
            | some e => [e]
            | none => [])) } := by
  unfold updateAgvStep
  rw [hauto]
  dsimp only
  split
  next tgt2 nid2 rest2 heq1 heq2 =>
    rw [htgt] at heq1
    rw [hpath] at heq2
    injection heq1 with heq1
    injection heq2 with heq2a heq2b
    subst heq1
    subst heq2a
    rw [hcn, hnn]
    dsimp only
    rw [if_pos hact, if_pos hdetour, if_neg hprog]
  next h =>
    exact absurd htgt (by
      intro hc
      exact h tgt nextNodeId restPath hc hpath)

/-- Concrete arbiter evaluation for the head-on scenario: the mid-edge ego
on A→B and the opposing vehicle at B heading to A trigger rule R1. -/
theorem egoHeadOn_arbiter_eval :
    checkTrafficRules
      { egoHeadOn with
        reservedNodes := List.take egoHeadOn.hardBorrowLength egoHeadOn.path }
      [egoHeadOn, otherHeadOn] nodeA nodeB =
      ⟨.REPATH_HEAD_ON, some ("Head-on w/ AGV-" ++ last4 otherHeadOn.id),
        some ⟨"A", "B"⟩, some otherHeadOn.id⟩ := by
  unfold checkTrafficRules
  rw [show egoHeadOn.path = "B" :: [] from rfl]
  dsimp only
  rw [if_neg (show ¬ egoHeadOn.progress < 0.05 by
    show ¬ (0.5 : ℝ) < 0.05
    norm_num)]
  rw [loopOthers, if_pos rfl, loopOthers]
  rw [if_neg (show ¬ otherHeadOn.id = egoHeadOn.id by decide)]
  unfold checkAgainst
  rw [if_pos (by exact ⟨rfl, rfl⟩)]
  rfl

/-- Claim C4: on a mid-edge head-on repath with a detour available, the
tick sets `currentNode` to the old `path[0]`, prepends the old
`currentNode` to the replanned path, inverts `progress` to `1 - progress`,
sets `progressDistance` to `edgeDistance * (1 - progress)`, leaves `x` and
`y` unchanged, enters REPATHING, and the resulting record still satisfies
`progress = progressDistance / distance(currentNode, path[0])`. -/
theorem claim_C4_repath_turn_on_edge (rm : Bool) (amb : Ambient)
    (md : MapData) (g : Graph) (prev : List AGV) (agv : AGV)
    (tgt nextNodeId : NodeId) (restPath : List NodeId) (cn nn : Node)
    (hauto : (if rm then autoPilotStep amb md g prev agv else none) = none)
    (htgt : agv.targetNode = some tgt)
    (hpath : agv.path = nextNodeId :: restPath)
    (hcn : md.nodes.find? (fun n => n.id == agv.currentNode) = some cn)
    (hnn : md.nodes.find? (fun n => n.id == nextNodeId) = some nn)
    (hact : (checkTrafficRules
      { agv with reservedNodes := List.take agv.hardBorrowLength agv.path }
      prev cn nn).action = .REPATH_HEAD_ON)
    (hdetour : (findPath agv.currentNode tgt g []
      (match (checkTrafficRules
        { agv with reservedNodes := List.take agv.hardBorrowLength agv.path }
        prev cn nn).avoidData with
        | some e => [e]
        | none => [])).length > 0)
    (hprog : ¬ agv.progress < 0.05)
    (hD : 0 < Real.sqrt ((nn.x - cn.x) * (nn.x - cn.x) +
      (nn.y - cn.y) * (nn.y - cn.y))) :
    (updateAgvStep rm amb md g prev agv).currentNode = nextNodeId ∧
    (updateAgvStep rm amb md g prev agv).path =
      agv.currentNode :: findPath agv.currentNode tgt g []
        (match (checkTrafficRules
          { agv with reservedNodes := List.take agv.hardBorrowLength agv.path }
          prev cn nn).avoidData with
          | some e => [e]
          | none => []) ∧
    (updateAgvStep rm amb md g prev agv).progress = 1 - agv.progress ∧
    (updateAgvStep rm amb md g prev agv).progressDistance =
      Real.sqrt ((nn.x - cn.x) * (nn.x - cn.x) + (nn.y - cn.y) * (nn.y - cn.y))
        * (1 - agv.progress) ∧
    (updateAgvStep rm amb md g prev agv).x = agv.x ∧
    (updateAgvStep rm amb md g prev agv).y = agv.y ∧
    (updateAgvStep rm amb md g prev agv).status = .REPATHING ∧
    (updateAgvStep rm amb md g prev agv).progress =
      (updateAgvStep rm amb md g prev agv).progressDistance /
        euclid nn.x nn.y cn.x cn.y := by
  rw [updateAgvStep_repath_midedge rm amb md g prev agv tgt nextNodeId restPath
    cn nn hauto htgt hpath hcn hnn hact hdetour hprog]
  refine ⟨rfl, rfl, rfl, rfl, rfl, rfl, rfl, ?_⟩
  have he : euclid nn.x nn.y cn.x cn.y =
      Real.sqrt ((nn.x - cn.x) * (nn.x - cn.x) + (nn.y - cn.y) * (nn.y - cn.y)) := by
    unfold euclid
    congr 1
    ring
  show (1 : ℝ) - agv.progress =
    Real.sqrt ((nn.x - cn.x) * (nn.x - cn.x) + (nn.y - cn.y) * (nn.y - cn.y))
      * (1 - agv.progress) / euclid nn.x nn.y cn.x cn.y
  rw [he, mul_comm, mul_div_assoc, div_self hD.ne', mul_one]

/-- Witness for C4 at the concrete head-on scenario on `map4`. -/
theorem claim_C4_witness :
    (updateAgvStep false amb0 map4 graph4 [egoHeadOn, otherHeadOn] egoHeadOn).currentNode
      = "B" ∧
    (updateAgvStep false amb0 map4 graph4 [egoHeadOn, otherHeadOn] egoHeadOn).path =
      egoHeadOn.currentNode :: findPath egoHeadOn.currentNode "B" graph4 []
        (match (checkTrafficRules
          { egoHeadOn with
            reservedNodes := List.take egoHeadOn.hardBorrowLength egoHeadOn.path }
          [egoHeadOn, otherHeadOn] nodeA nodeB).avoidData with
          | some e => [e]
          | none => []) ∧
    (updateAgvStep false amb0 map4 graph4 [egoHeadOn, otherHeadOn] egoHeadOn).progress
      = 1 - egoHeadOn.progress ∧
    (updateAgvStep false amb0 map4 graph4 [egoHeadOn, otherHeadOn] egoHeadOn).progressDistance
      = Real.sqrt ((nodeB.x - nodeA.x) * (nodeB.x - nodeA.x) +
          (nodeB.y - nodeA.y) * (nodeB.y - nodeA.y)) * (1 - egoHeadOn.progress) ∧
    (updateAgvStep false amb0 map4 graph4 [egoHeadOn, otherHeadOn] egoHeadOn).x
      = egoHeadOn.x ∧
    (updateAgvStep false amb0 map4 graph4 [egoHeadOn, otherHeadOn] egoHeadOn).y
      = egoHeadOn.y ∧
    (updateAgvStep false amb0 map4 graph4 [egoHeadOn, otherHeadOn] egoHeadOn).status
      = .REPATHING ∧
    (updateAgvStep false amb0 map4 graph4 [egoHeadOn, otherHeadOn] egoHeadOn).progress
      = (updateAgvStep false amb0 map4 graph4 [egoHeadOn, otherHeadOn] egoHeadOn).progressDistance
        / euclid nodeB.x nodeB.y nodeA.x nodeA.y :=
  claim_C4_repath_turn_on_edge false amb0 map4 graph4 [egoHeadOn, otherHeadOn]
    egoHeadOn "B" "B" [] nodeA nodeB rfl rfl rfl rfl rfl
    (by rw [egoHeadOn_arbiter_eval])
    (by rw [egoHeadOn_arbiter_eval]; decide)
    (by
      show ¬ (0.5 : ℝ) < 0.05
      norm_num)
    (Real.sqrt_pos.2 (by norm_num [nodeA, nodeB]))

/-- The auto-pilot branch only replans; it does not touch the speed. -/
theorem autoPilotStep_keeps_speed (amb : Ambient) (md : MapData) (g : Graph)
    (prev : List AGV) (agv : AGV) (b : AGV)
    (h : autoPilotStep amb md g prev agv = some b) :
    b.currentSpeed = agv.currentSpeed := by
  unfold autoPilotStep at h
  dsimp only at h
  split_ifs at h
  split at h
  · injection h with h2
    rw [← h2]
  · exact absurd h (by simp)

/-- SpeedShape is preserved by an if between two vehicles. -/
theorem speedShape_ite (agv : AGV) (c : Prop) [Decidable c] (a b : AGV)
    (ha : SpeedShape agv a.currentSpeed) (hb : SpeedShape agv b.currentSpeed) :
    SpeedShape agv (if c then a else b).currentSpeed := by
  split
  · exact ha
  · exact hb

/-- The physics speed update with an abstract target speed fits SpeedShape. -/
theorem speedShape_tsabs (agv : AGV) (ts : ℝ) (hts : ts = 0 ∨ ts = agv.maxSpeed) :
    SpeedShape agv
      (if agv.currentSpeed < ts then min (agv.currentSpeed + agv.acceleration) ts
       else if agv.currentSpeed > ts then max (agv.currentSpeed - agv.deceleration) ts
       else agv.currentSpeed) := by
  split_ifs with h1 h2
  · exact Or.inr (Or.inr (Or.inr ⟨ts, hts, Or.inl ⟨rfl, h1⟩⟩))
  · exact Or.inr (Or.inr (Or.inr ⟨ts, hts, Or.inr ⟨rfl, h2⟩⟩))
  · exact Or.inl rfl

/-- The physics speed update with the stop-condition target speed fits SpeedShape. -/
theorem speedShape_physics (agv : AGV) (c : Prop) [Decidable c] :
    SpeedShape agv
      (if agv.currentSpeed < (if c then (0:ℝ) else agv.maxSpeed) then
         min (agv.currentSpeed + agv.acceleration) (if c then (0:ℝ) else agv.maxSpeed)
       else if agv.currentSpeed > (if c then (0:ℝ) else agv.maxSpeed) then
         max (agv.currentSpeed - agv.deceleration) (if c then (0:ℝ) else agv.maxSpeed)
       else agv.currentSpeed) :=
  speedShape_tsabs agv _ (by
    split
    · exact Or.inl rfl
    · exact Or.inr rfl)

set_option maxHeartbeats 4000000 in
/-- Case analysis of the speed written by one tick. -/
theorem updateAgvStep_speed_cases (rm : Bool) (amb : Ambient) (md : MapData)
    (g : Graph) (prev : List AGV) (agv : AGV) :
    SpeedShape agv (updateAgvStep rm amb md g prev agv).currentSpeed := by
  unfold updateAgvStep
  split
  next b heq =>
    cases rm with
    | false => exact absurd heq (by simp)
    | true =>
      rw [if_pos rfl] at heq
      exact Or.inl (autoPilotStep_keeps_speed amb md g prev agv b heq)
  next heq =>
    split
    · split
      · lift_lets
        intros
        repeat' split
        all_goals first
          | exact Or.inl rfl
          | exact Or.inr (Or.inl rfl)
          | exact Or.inr (Or.inr (Or.inl rfl))
          | exact speedShape_physics agv _
          | exact speedShape_ite agv _ _ _
              (speedShape_ite agv _ _ _ (Or.inr (Or.inl rfl)) (Or.inr (Or.inl rfl)))
              (Or.inr (Or.inr (Or.inl rfl)))
      · exact Or.inl rfl
    · exact Or.inr (Or.inr (Or.inl rfl))

/-- Claim C7 counterexample: the mid-edge head-on replan zeroes the speed
of a vehicle travelling at 1.4, so the per-tick speed change 1.4 exceeds
max(acceleration, deceleration) = 0.15, although the vehicle satisfied
0 ≤ currentSpeed ≤ maxSpeed and both rates are nonnegative. -/
theorem claim_C7_counterexample :
    ((0:ℝ) ≤ egoHeadOn.currentSpeed ∧ egoHeadOn.currentSpeed ≤ egoHeadOn.maxSpeed ∧
     (0:ℝ) ≤ egoHeadOn.acceleration ∧ (0:ℝ) ≤ egoHeadOn.deceleration) ∧
    ¬ |(updateAgvStep false amb0 map4 graph4 [egoHeadOn, otherHeadOn]
          egoHeadOn).currentSpeed - egoHeadOn.currentSpeed| ≤
        max egoHeadOn.acceleration egoHeadOn.deceleration := by
  constructor
  · refine ⟨?_, ?_, ?_, ?_⟩ <;> norm_num [egoHeadOn, agvBase]
  · rw [updateAgvStep_repath_midedge false amb0 map4 graph4 [egoHeadOn, otherHeadOn]
      egoHeadOn "B" "B" [] nodeA nodeB rfl rfl rfl rfl rfl
      (by rw [egoHeadOn_arbiter_eval])
      (by rw [egoHeadOn_arbiter_eval]; decide)
      (by
        show ¬ (0.5 : ℝ) < 0.05
        norm_num)]
    show ¬ |(0:ℝ) - 1.4| ≤ max (0.1:ℝ) 0.15
    rw [zero_sub, abs_neg, abs_of_nonneg (by norm_num : (0:ℝ) ≤ 1.4),
      max_eq_right (by norm_num : (0.1:ℝ) ≤ 0.15)]
    norm_num

/-- Claim C7 (amended): for a vehicle with 0 ≤ currentSpeed ≤ maxSpeed and
nonnegative acceleration and deceleration, one tick keeps the speed inside
[0, maxSpeed], and the change of speed is bounded by
max(acceleration, deceleration) except in the branches that zero the speed
outright (head-on replans, detours, step-backs and the STOP action). -/
theorem claim_C7_amended (rm : Bool) (amb : Ambient) (md : MapData)
    (g : Graph) (prev : List AGV) (agv : AGV)
    (h0 : 0 ≤ agv.currentSpeed) (h1 : agv.currentSpeed ≤ agv.maxSpeed)
    (ha : 0 ≤ agv.acceleration) (hd : 0 ≤ agv.deceleration) :
    (0 ≤ (updateAgvStep rm amb md g prev agv).currentSpeed ∧
      (updateAgvStep rm amb md g prev agv).currentSpeed ≤ agv.maxSpeed) ∧
    (|(updateAgvStep rm amb md g prev agv).currentSpeed - agv.currentSpeed|
        ≤ max agv.acceleration agv.deceleration ∨
      (updateAgvStep rm amb md g prev agv).currentSpeed = 0) := by
  have hshape := updateAgvStep_speed_cases rm amb md g prev agv
  have hM : (0:ℝ) ≤ agv.maxSpeed := le_trans h0 h1
  rcases hshape with h | h | h | ⟨ts, hts, hcase⟩
  · rw [h]
    refine ⟨⟨h0, h1⟩, Or.inl ?_⟩
    rw [sub_self, abs_zero]
    exact le_max_of_le_left ha
  · rw [h]
    exact ⟨⟨le_refl 0, hM⟩, Or.inr rfl⟩
  · rw [h]
    have hle : max 0 (agv.currentSpeed - agv.deceleration) ≤ agv.currentSpeed :=
      max_le h0 (by linarith)
    refine ⟨⟨le_max_left _ _, max_le hM (by linarith)⟩, Or.inl ?_⟩
    rw [abs_of_nonpos (by linarith)]
    have h2 : agv.currentSpeed - agv.deceleration ≤
        max 0 (agv.currentSpeed - agv.deceleration) := le_max_right _ _
    refine le_trans ?_ (le_max_right agv.acceleration agv.deceleration)
    linarith
  · have hts0 : (0:ℝ) ≤ ts := by
      rcases hts with rfl | rfl
      · exact le_refl 0
      · exact hM
    have htsM : ts ≤ agv.maxSpeed := by
      rcases hts with rfl | rfl
      · exact hM
      · exact le_refl _
    rcases hcase with ⟨hseq, hlt⟩ | ⟨hseq, hgt⟩
    · rw [hseq]
      have hvle : agv.currentSpeed ≤
          min (agv.currentSpeed + agv.acceleration) ts :=
        le_min (by linarith) (le_of_lt hlt)
      refine ⟨⟨le_trans h0 hvle, le_trans (min_le_right _ _) htsM⟩, Or.inl ?_⟩
      rw [abs_of_nonneg (by linarith)]
      have h2 : min (agv.currentSpeed + agv.acceleration) ts ≤
          agv.currentSpeed + agv.acceleration := min_le_left _ _
      refine le_trans ?_ (le_max_left agv.acceleration agv.deceleration)
      linarith
    · rw [hseq]
      have hle : max (agv.currentSpeed - agv.deceleration) ts ≤
          agv.currentSpeed :=
        max_le (by linarith) (le_of_lt hgt)
      refine ⟨⟨le_trans hts0 (le_max_right _ _), max_le (by linarith) htsM⟩,
        Or.inl ?_⟩
      rw [abs_of_nonpos (by linarith)]
      have h2 : agv.currentSpeed - agv.deceleration ≤
          max (agv.currentSpeed - agv.deceleration) ts := le_max_left _ _
      refine le_trans ?_ (le_max_right agv.acceleration agv.deceleration)
      linarith

/-- Claim C7 witness: the amended bound applied to the base vehicle on the
two-node map. -/
theorem claim_C7_witness :
    ((0:ℝ) ≤ agvBase.currentSpeed ∧ agvBase.currentSpeed ≤ agvBase.maxSpeed) ∧
    ((0 ≤ (updateAgvStep false amb0 mapAB graphAB [agvBase] agvBase).currentSpeed ∧
      (updateAgvStep false amb0 mapAB graphAB [agvBase] agvBase).currentSpeed
        ≤ agvBase.maxSpeed) ∧
     (|(updateAgvStep false amb0 mapAB graphAB [agvBase] agvBase).currentSpeed
         - agvBase.currentSpeed| ≤ max agvBase.acceleration agvBase.deceleration ∨
      (updateAgvStep false amb0 mapAB graphAB [agvBase] agvBase).currentSpeed
        = 0)) :=
  ⟨⟨by norm_num [agvBase], by norm_num [agvBase]⟩,
   claim_C7_amended false amb0 mapAB graphAB [agvBase] agvBase
     (by norm_num [agvBase]) (by norm_num [agvBase])
     (by norm_num [agvBase]) (by norm_num [agvBase])⟩

/-- A successful `lookup` returns a pair of the list. -/
theorem lookup_pair_mem {β : Type} (l : List (NodeId × β)) (u : NodeId)
    (adj : β) (h : l.lookup u = some adj) : (u, adj) ∈ l := by
  induction l with
  | nil => simp [List.lookup] at h
  | cons p rest ih =>
    rw [List.lookup] at h
    split at h
    next hbeq =>
      injection h with h
      have hu : u = p.1 := by simpa using hbeq
      rw [hu, ← h]
      exact List.mem_cons_self _ _
    next hbeq =>
      exact List.mem_cons_of_mem _ (ih h)

/-- A graph key has a defined adjacency list. -/
theorem graphAdj_isSome_of_mem (g : Graph) (u : NodeId)
    (h : u ∈ graphKeys g) : ∃ adj, graphAdj g u = some adj := by
  induction g with
  | nil => simp [graphKeys] at h
  | cons p rest ih =>
    unfold graphAdj List.lookup
    by_cases he : u = p.1
    · refine ⟨p.2, ?_⟩
      rw [show (u == p.1) = true by simpa using he]
    · rw [show (u == p.1) = false by simpa using he]
      rcases ih (by
        rcases (by simpa [graphKeys] using h) with h1 | h1
        · exact absurd h1 he
        · simpa [graphKeys] using h1) with ⟨adj, hadj⟩
      exact ⟨adj, hadj⟩

/-- The source node of an admissible step is a graph key. -/
theorem allowedStep_mem_keys (g : Graph) (aN : List NodeId)
    (aE : List EdgeRef) (u v : NodeId) (w : ℕ)
    (h : AllowedStep g aN aE u v w) : u ∈ graphKeys g := by
  rcases h.1 with ⟨adj, hadj, -⟩
  have := lookup_pair_mem g u adj hadj
  exact List.mem_map_of_mem Prod.fst this

/-- Appending one admissible step at the end of an admissible sequence. -/
theorem pathCost_snoc (g : Graph) (aN : List NodeId) (aE : List EdgeRef)
    (x y z : NodeId) (w : ℕ) :
    ∀ (steps : List NodeId) (c : ℕ),
      PathCost g aN aE x steps c → steps.getLastD x = y →
      AllowedStep g aN aE y z w →
      PathCost g aN aE x (steps ++ [z]) (c + w) := by
  intro steps c hpc
  induction hpc with
  | nil u =>
    intro hlast hstep
    simp only [List.getLastD_nil] at hlast
    subst hlast
    simpa using PathCost.cons hstep (PathCost.nil z)
  | cons hstep htail ih =>
    intro hlast hstep2
    rw [List.getLastD_cons] at hlast
    have := PathCost.cons hstep (ih hlast hstep2)
    simpa [Nat.add_assoc] using this

/-- Extending a reachability witness by one admissible step. -/
theorem reachCosts_snoc (g : Graph) (aN : List NodeId) (aE : List EdgeRef)
    (start u v : NodeId) (m w : ℕ)
    (hm : ((m : ℕ∞)) ∈ ReachCosts g aN aE start u)
    (hstep : AllowedStep g aN aE u v w) :
    (((m + w : ℕ) : ℕ∞)) ∈ ReachCosts g aN aE start v := by
  rcases hm with ⟨steps, n, hc, hpc, hlast⟩
  have hn : m = n := by exact_mod_cast hc
  subst hn
  exact ⟨steps ++ [v], m + w, rfl,
    pathCost_snoc g aN aE start u v w steps m hpc hlast hstep,
    List.getLastD_concat _ _ _⟩

/-- The start itself is reachable at cost zero. -/
theorem reachCosts_zero (g : Graph) (aN : List NodeId) (aE : List EdgeRef)
    (start : NodeId) : ((0 : ℕ) : ℕ∞) ∈ ReachCosts g aN aE start start :=
  ⟨[], 0, rfl, PathCost.nil start, rfl⟩

/-- The head of the sorted queue has the minimal tentative distance. -/
theorem sortedHead_min (dist : NodeId → Option ℕ∞) (queue : List NodeId)
    (u : NodeId) (rest : List NodeId)
    (h : queue.insertionSort (queueRel dist) = u :: rest) :
    ∀ q ∈ queue, ((dist u).getD ⊤) ≤ ((dist q).getD ⊤) := by
  intro q hq
  have hperm := List.perm_insertionSort (queueRel dist) queue
  have hq2 : q ∈ u :: rest := by
    rw [← h]
    exact hperm.symm.subset hq
  have hsorted := List.sorted_insertionSort (queueRel dist) queue
  rw [h] at hsorted
  rcases List.mem_cons.1 hq2 with rfl | hq3
  · exact le_refl _
  · exact (List.pairwise_cons.1 hsorted).1 q hq3

/-- `setKey` at the written key. -/
theorem setKey_same {β : Type} (m : NodeId → Option β) (k : NodeId) (x : β) :
    setKey m k x k = some x := by
  unfold setKey
  rw [if_pos rfl]

/-- `setKey` elsewhere. -/
theorem setKey_other {β : Type} (m : NodeId → Option β) (k v : NodeId) (x : β)
    (h : v ≠ k) : setKey m k x v = m v := by
  unfold setKey
  rw [if_neg h]

/-- Each entry of the relaxation pass either leaves a node untouched or
rewrites distance and predecessor together, to `du + w` and `u`, for an
adjacency entry `⟨v, w⟩` of the processed list that passed both avoidance
guards and strictly improved the previous finite tentative distance. -/
theorem relax_cases (aN : List NodeId) (aE : List EdgeRef) (u : NodeId)
    (du : ℕ) :
    ∀ (l : List GraphNode) (dist : NodeId → Option ℕ∞)
      (prev : NodeId → Option (Option NodeId)) (v : NodeId),
      ((relaxNeighbors aN aE u du l dist prev).1 v = dist v ∧
       (relaxNeighbors aN aE u du l dist prev).2 v = prev v) ∨
      (∃ w : ℕ, (⟨v, w⟩ : GraphNode) ∈ l ∧
        aN.contains v = false ∧ edgeAvoided aE u v = false ∧
        (∃ dv : ℕ∞, dist v = some dv ∧ (((du + w : ℕ) : ℕ∞)) < dv) ∧
        (relaxNeighbors aN aE u du l dist prev).1 v
          = some (((du + w : ℕ) : ℕ∞)) ∧
        (relaxNeighbors aN aE u du l dist prev).2 v = some (some u)) := by
  intro l
  induction l with
  | nil => intro dist prev v; exact Or.inl ⟨rfl, rfl⟩
  | cons nb rest ih =>
    intro dist prev v
    rw [relaxNeighbors]
    split
    · -- avoided node
      rcases ih dist prev v with h | ⟨w, hmem, h⟩
      · exact Or.inl h
      · exact Or.inr ⟨w, List.mem_cons_of_mem _ hmem, h⟩
    · split
      · -- avoided edge
        rcases ih dist prev v with h | ⟨w, hmem, h⟩
        · exact Or.inl h
        · exact Or.inr ⟨w, List.mem_cons_of_mem _ hmem, h⟩
      · split
        · -- dist nb.node = none
          rcases ih dist prev v with h | ⟨w, hmem, h⟩
          · exact Or.inl h
          · exact Or.inr ⟨w, List.mem_cons_of_mem _ hmem, h⟩
        · next dv hdv =>
          dsimp only
          split
          · -- strict improvement: both maps updated at nb.node
            next hlt =>
            rcases ih (setKey dist nb.node ((du + nb.weight : ℕ) : ℕ∞))
                (setKey prev nb.node (some u)) v with
              ⟨h1, h2⟩ | ⟨w, hmem, hcont, hedge, ⟨dv1, hdv1, hlt1⟩, h1, h2⟩
            · by_cases hv : v = nb.node
              · subst hv
                refine Or.inr ⟨nb.weight, ?_, ?_, ?_, ⟨dv, hdv, hlt⟩, ?_, ?_⟩
                · exact List.mem_cons_self _ _
                · exact Bool.eq_false_iff.2 (by assumption)
                · exact Bool.eq_false_iff.2 (by assumption)
                · rw [h1, setKey_same]
                · rw [h2, setKey_same]
              · exact Or.inl ⟨by rw [h1, setKey_other _ _ _ _ hv],
                  by rw [h2, setKey_other _ _ _ _ hv]⟩
            · by_cases hv : v = nb.node
              · subst hv
                rw [setKey_same] at hdv1
                injection hdv1 with hdv1
                refine Or.inr ⟨w, List.mem_cons_of_mem _ hmem, hcont, hedge,
                  ⟨dv, hdv, lt_trans (hdv1 ▸ hlt1) hlt⟩, h1, h2⟩
              · rw [setKey_other _ _ _ _ hv] at hdv1
                exact Or.inr ⟨w, List.mem_cons_of_mem _ hmem, hcont, hedge,
                  ⟨dv1, hdv1, hlt1⟩, h1, h2⟩
          · -- no improvement
            rcases ih dist prev v with h | ⟨w, hmem, h⟩
            · exact Or.inl h
            · exact Or.inr ⟨w, List.mem_cons_of_mem _ hmem, h⟩

/-- The relaxation pass never increases a tentative distance. -/
theorem relax_mono (aN : List NodeId) (aE : List EdgeRef) (u : NodeId)
    (du : ℕ) (l : List GraphNode) (dist : NodeId → Option ℕ∞)
    (prev : NodeId → Option (Option NodeId)) (v : NodeId) :
    ((relaxNeighbors aN aE u du l dist prev).1 v).getD ⊤ ≤
      ((dist v).getD ⊤) := by
  rcases relax_cases aN aE u du l dist prev v with ⟨h1, -⟩ |
    ⟨w, -, -, -, ⟨dv, hdv, hlt⟩, h1, -⟩
  · rw [h1]
  · rw [h1, hdv]
    exact le_of_lt hlt

/-- After the relaxation pass, every processed adjacency entry that passed
the avoidance guards and had a defined tentative distance ends at most at
`du + w`. -/
theorem relax_processed (aN : List NodeId) (aE : List EdgeRef) (u : NodeId)
    (du : ℕ) :
    ∀ (l : List GraphNode) (dist : NodeId → Option ℕ∞)
      (prev : NodeId → Option (Option NodeId)) (v : NodeId) (w : ℕ),
      (⟨v, w⟩ : GraphNode) ∈ l →
      aN.contains v = false → edgeAvoided aE u v = false →
      (dist v).isSome →
      ((relaxNeighbors aN aE u du l dist prev).1 v).getD ⊤ ≤
        (((du + w : ℕ)) : ℕ∞) := by
  intro l
  induction l with
  | nil =>
    intro dist prev v w hmem
    exact absurd hmem (List.not_mem_nil _)
  | cons nb rest ih =>
    intro dist prev v w hmem hcont hedge hsome
    rcases List.mem_cons.1 hmem with heq | hmem2
    · -- the head entry is ⟨v, w⟩ itself
      have hnode : nb.node = v := by rw [← heq]
      have hweight : nb.weight = w := by rw [← heq]
      rw [relaxNeighbors]
      rw [if_neg (by rw [hnode, hcont]; exact Bool.false_ne_true)]
      rw [if_neg (by rw [hnode, hedge]; exact Bool.false_ne_true)]
      rcases hdv : dist nb.node with - | dv
      · rw [hnode] at hdv
        rw [hdv] at hsome
        exact absurd hsome (by simp)
      · dsimp only
        by_cases hlt : ((du + nb.weight : ℕ) : ℕ∞) < dv
        · rw [if_pos hlt]
          refine le_trans (relax_mono aN aE u du rest _ _ v) ?_
          rw [← hnode, setKey_same, hweight]
          rfl
        · rw [if_neg hlt]
          refine le_trans (relax_mono aN aE u du rest _ _ v) ?_
          rw [← hnode, hdv]
          rw [hweight] at hlt
          simpa using not_lt.1 hlt
    · -- the entry sits in the tail
      rw [relaxNeighbors]
      split
      · exact ih dist prev v w hmem2 hcont hedge hsome
      · split
        · exact ih dist prev v w hmem2 hcont hedge hsome
        · split
          · exact ih dist prev v w hmem2 hcont hedge hsome
          · dsimp only
            split
            · refine ih _ _ v w hmem2 hcont hedge ?_
              by_cases hv : v = nb.node
              · rw [hv, setKey_same]; rfl
              · rw [setKey_other _ _ _ _ hv]; exact hsome
            · exact ih dist prev v w hmem2 hcont hedge hsome

/-- The classic cut argument: at the top of an iteration, the minimal
tentative distance in the queue bounds the cost of every admissible walk
from a key `x` to any queue member, up to the tentative distance of `x`. -/
theorem dijk_min_bound (g : Graph) (aN : List NodeId) (aE : List EdgeRef)
    (dist : NodeId → Option ℕ∞) (queue : List NodeId) (u0 : NodeId)
    (hmin : ∀ q ∈ queue, ((dist u0).getD ⊤) ≤ ((dist q).getD ⊤))
    (hqsub : ∀ v ∈ queue, v ∈ graphKeys g)
    (hrel : ∀ x ∈ graphKeys g, x ∉ queue → ∀ v w,
      AllowedStep g aN aE x v w → v ∈ graphKeys g →
      ((dist v).getD ⊤) ≤ ((dist x).getD ⊤) + (w : ℕ∞)) :
    ∀ (x : NodeId) (steps : List NodeId) (n : ℕ),
      PathCost g aN aE x steps n → x ∈ graphKeys g →
      steps.getLastD x ∈ queue →
      ((dist u0).getD ⊤) ≤ ((dist x).getD ⊤) + (n : ℕ∞) := by
  intro x steps n hpc
  induction hpc with
  | nil x =>
    intro hx hlast
    simp only [List.getLastD_nil] at hlast
    simpa using hmin x hlast
  | @cons x y w steps' c hstep htail ih =>
    intro hx hlast
    rw [List.getLastD_cons] at hlast
    by_cases hxq : x ∈ queue
    · exact le_trans (hmin x hxq) le_self_add
    · have hy : y ∈ graphKeys g := by
        cases htail with
        | nil => exact hqsub y (by simpa using hlast)
        | cons hstep2 htail2 => exact allowedStep_mem_keys _ _ _ _ _ _ hstep2
      have h1 := hrel x hx hxq y w hstep hy
      have h2 := ih hy hlast
      calc ((dist u0).getD ⊤) ≤ ((dist y).getD ⊤) + (c : ℕ∞) := h2
        _ ≤ (((dist x).getD ⊤) + (w : ℕ∞)) + (c : ℕ∞) := add_le_add_right h1 _
        _ = ((dist x).getD ⊤) + ((w + c : ℕ) : ℕ∞) := by
            rw [Nat.cast_add, add_assoc]

/-- The relaxation pass does not touch a node whose tentative distance is
already a lower bound for all its admissible walk costs. -/
theorem relax_frozen (g : Graph) (aN : List NodeId) (aE : List EdgeRef)
    (start u : NodeId) (du : ℕ) (dist : NodeId → Option ℕ∞)
    (prev : NodeId → Option (Option NodeId)) (l : List GraphNode)
    (hadj : graphAdj g u = some l)
    (hwalk : ((du : ℕ∞)) ∈ ReachCosts g aN aE start u) (p : NodeId)
    (hmin : ∀ c ∈ ReachCosts g aN aE start p, ((dist p).getD ⊤) ≤ c) :
    (relaxNeighbors aN aE u du l dist prev).1 p = dist p ∧
    (relaxNeighbors aN aE u du l dist prev).2 p = prev p := by
  rcases relax_cases aN aE u du l dist prev p with h |
    ⟨w, hmem, hcont, hedge, ⟨dv, hdv, hlt⟩, -, -⟩
  · exact h
  · have hstep : AllowedStep g aN aE u p w :=
      ⟨⟨l, hadj, hmem⟩, by rw [hcont]; exact Bool.false_ne_true,
        by rw [hedge]; exact Bool.false_ne_true⟩
    have hreach := reachCosts_snoc g aN aE start u p du w hwalk hstep
    have hle := hmin _ hreach
    rw [hdv, Option.getD_some] at hle
    exact absurd (lt_of_le_of_lt hle hlt) (lt_irrefl _)

/-- The relaxation pass never touches the dequeued node itself. -/
theorem relax_frozen_head (aN : List NodeId) (aE : List EdgeRef) (u : NodeId)
    (du : ℕ) (l : List GraphNode) (dist : NodeId → Option ℕ∞)
    (prev : NodeId → Option (Option NodeId))
    (hdu : dist u = some ((du : ℕ∞))) :
    (relaxNeighbors aN aE u du l dist prev).1 u = dist u ∧
    (relaxNeighbors aN aE u du l dist prev).2 u = prev u := by
  rcases relax_cases aN aE u du l dist prev u with h |
    ⟨w, -, -, -, ⟨dv, hdv, hlt⟩, -, -⟩
  · exact h
  · rw [hdu] at hdv
    injection hdv with hdv
    subst hdv
    exact absurd hlt (not_lt.2 (by exact_mod_cast Nat.le_add_right du w))

/-- One loop iteration (dequeue `u`, relax its adjacency list) preserves the
invariant on the remaining queue. -/
theorem dijk_preserve (g : Graph) (aN : List NodeId) (aE : List EdgeRef)
    (start target : NodeId) (dist : NodeId → Option ℕ∞)
    (prev : NodeId → Option (Option NodeId)) (queue : List NodeId)
    (u : NodeId) (rest : List NodeId)
    (hinv : DijkInv g aN aE start target dist prev queue)
    (hsort : queue.insertionSort (queueRel dist) = u :: rest)
    (hut : u ≠ target) (dn : ℕ) (hdu : dist u = some ((dn : ℕ∞)))
    (adj : List GraphNode) (hadj : graphAdj g u = some adj) :
    DijkInv g aN aE start target
      (relaxNeighbors aN aE u dn adj dist prev).1
      (relaxNeighbors aN aE u dn adj dist prev).2 rest := by
  have hperm : (u :: rest).Perm queue := by
    rw [← hsort]
    exact List.perm_insertionSort _ _
  have hmemu : u ∈ queue := hperm.subset (List.mem_cons_self _ _)
  have hu_keys : u ∈ graphKeys g := hinv.qsub u hmemu
  have hnd_sorted : (u :: rest).Nodup := (List.Perm.nodup_iff hperm).2 hinv.qnd
  have hu_not_rest : u ∉ rest := (List.nodup_cons.1 hnd_sorted).1
  have hrest_sub : ∀ v ∈ rest, v ∈ queue :=
    fun v hv => hperm.subset (List.mem_cons_of_mem _ hv)
  have hq_cases : ∀ v ∈ queue, v = u ∨ v ∈ rest :=
    fun v hv => List.mem_cons.1 (hperm.symm.subset hv)
  have hstart_keys : start ∈ graphKeys g :=
    (hinv.base.ddom start).1 (by rw [hinv.base.dstart]; rfl)
  have hmin := sortedHead_min dist queue u rest hsort
  have hwalk_u : ((dn : ℕ∞)) ∈ ReachCosts g aN aE start u :=
    hinv.base.sound u dn hdu
  have hminRC_u : ∀ c ∈ ReachCosts g aN aE start u, ((dn : ℕ∞)) ≤ c := by
    intro c hc
    rcases hc with ⟨steps, n, rfl, hpc, hlast⟩
    have hb := dijk_min_bound g aN aE dist queue u hmin hinv.qsub
      hinv.relaxed start steps n hpc hstart_keys (by rw [hlast]; exact hmemu)
    rw [hdu, hinv.base.dstart] at hb
    simpa using hb
  have hfrozen : ∀ p, p ∈ graphKeys g → p ∉ queue →
      (relaxNeighbors aN aE u dn adj dist prev).1 p = dist p ∧
      (relaxNeighbors aN aE u dn adj dist prev).2 p = prev p :=
    fun p hp hpq => relax_frozen g aN aE start u dn dist prev adj hadj
      hwalk_u p (hinv.settledMin p hp hpq)
  have hfrozen_u : (relaxNeighbors aN aE u dn adj dist prev).1 u = dist u ∧
      (relaxNeighbors aN aE u dn adj dist prev).2 u = prev u :=
    relax_frozen_head aN aE u dn adj dist prev hdu
  have hstart_frozen :
      (relaxNeighbors aN aE u dn adj dist prev).1 start = dist start ∧
      (relaxNeighbors aN aE u dn adj dist prev).2 start = prev start := by
    rcases relax_cases aN aE u dn adj dist prev start with h |
      ⟨w, -, -, -, ⟨dv, hdv, hlt⟩, -, -⟩
    · exact h
    · rw [hinv.base.dstart] at hdv
      injection hdv with hdv
      subst hdv
      exact absurd hlt (not_lt.2 (zero_le _))
  refine
    { base :=
      { ddom := ?_, pdom := ?_, dstart := ?_, pstart := ?_, sound := ?_,
        topprev := ?_, chainF := ?_ },
      qnd := (List.nodup_cons.1 hnd_sorted).2,
      qsub := fun v hv => hinv.qsub v (hrest_sub v hv),
      tq := ?_, chainSettled := ?_, settledMin := ?_, relaxed := ?_ }
  · -- ddom
    intro v
    rcases relax_cases aN aE u dn adj dist prev v with ⟨h1, -⟩ |
      ⟨w, -, -, -, ⟨dv, hdv, -⟩, h1, -⟩
    · rw [h1]; exact hinv.base.ddom v
    · rw [h1]
      exact ⟨fun _ => (hinv.base.ddom v).1 (by rw [hdv]; rfl), fun _ => rfl⟩
  · -- pdom
    intro v
    rcases relax_cases aN aE u dn adj dist prev v with ⟨-, h2⟩ |
      ⟨w, -, -, -, ⟨dv, hdv, -⟩, -, h2⟩
    · rw [h2]; exact hinv.base.pdom v
    · rw [h2]
      exact ⟨fun _ => (hinv.base.ddom v).1 (by rw [hdv]; rfl), fun _ => rfl⟩
  · exact hstart_frozen.1.trans hinv.base.dstart
  · exact hstart_frozen.2.trans hinv.base.pstart
  · -- sound
    intro v n h
    rcases relax_cases aN aE u dn adj dist prev v with ⟨h1, -⟩ |
      ⟨w, hmem, hcont, hedge, -, h1, -⟩
    · rw [h1] at h
      exact hinv.base.sound v n h
    · rw [h1] at h
      injection h with h
      have hn : dn + w = n := by exact_mod_cast h
      subst hn
      exact reachCosts_snoc g aN aE start u v dn w hwalk_u
        ⟨⟨adj, hadj, hmem⟩, by rw [hcont]; exact Bool.false_ne_true,
          by rw [hedge]; exact Bool.false_ne_true⟩
  · -- topprev
    intro v hv h
    rcases relax_cases aN aE u dn adj dist prev v with ⟨h1, h2⟩ |
      ⟨w, -, -, -, -, -, h2⟩
    · rw [h2] at h
      rw [h1]
      exact hinv.base.topprev v hv h
    · rw [h2] at h
      injection h with h
      exact absurd h (by simp)
  · -- chainF
    intro v p h
    rcases relax_cases aN aE u dn adj dist prev v with ⟨h1, h2⟩ |
      ⟨w, hmem, hcont, hedge, -, h1, h2⟩
    · rw [h2] at h
      rcases hinv.base.chainF v p h with ⟨hpk, w, dp, hstep, hdp, hdv⟩
      have hps : p ∉ queue := hinv.chainSettled v p h
      refine ⟨hpk, w, dp, hstep, ?_, ?_⟩
      · rw [(hfrozen p hpk hps).1]; exact hdp
      · rw [h1]; exact hdv
    · rw [h2] at h
      injection h with h
      injection h with h
      subst h
      refine ⟨hu_keys, w, dn,
        ⟨⟨adj, hadj, hmem⟩, by rw [hcont]; exact Bool.false_ne_true,
          by rw [hedge]; exact Bool.false_ne_true⟩, ?_, h1⟩
      rw [hfrozen_u.1]
      exact hdu
  · -- tq
    rcases hq_cases target hinv.tq with h | h
    · exact absurd h.symm hut
    · exact h
  · -- chainSettled
    intro v p h
    rcases relax_cases aN aE u dn adj dist prev v with ⟨-, h2⟩ |
      ⟨w, -, -, -, -, -, h2⟩
    · rw [h2] at h
      exact fun hr => hinv.chainSettled v p h (hrest_sub p hr)
    · rw [h2] at h
      injection h with h
      injection h with h
      subst h
      exact hu_not_rest
  · -- settledMin
    intro p hp hpr c hc
    by_cases hpq : p ∈ queue
    · rcases hq_cases p hpq with rfl | h
      · rw [hfrozen_u.1, hdu]
        exact hminRC_u c hc
      · exact absurd h hpr
    · rw [(hfrozen p hp hpq).1]
      exact hinv.settledMin p hp hpq c hc
  · -- relaxed
    intro p hp hpr v w hstep hv
    by_cases hpq : p ∈ queue
    · rcases hq_cases p hpq with rfl | h
      · -- p = u: the freshly relaxed node
        rcases hstep with ⟨⟨adj2, hadj2, hmem2⟩, hcont, hedge⟩
        rw [hadj] at hadj2
        injection hadj2 with hadj2
        subst hadj2
        have hvs : (dist v).isSome := (hinv.base.ddom v).2 hv
        have := relax_processed aN aE p dn adj dist prev v w hmem2
          (Bool.eq_false_iff.2 hcont) (Bool.eq_false_iff.2 hedge) hvs
        rw [hfrozen_u.1, hdu]
        simpa [Nat.cast_add] using this
      · exact absurd h hpr
    · rw [(hfrozen p hp hpq).1]
      refine le_trans (relax_mono aN aE u dn adj dist prev v) ?_
      exact hinv.relaxed p hp hpq v w hstep hv

/-- Running the Dijkstra loop from an invariant state with exact fuel
yields a well-formed final state whose tentative distance at the target
bounds every admissible walk cost from below. -/
theorem dijkstraLoop_post (g : Graph) (aN : List NodeId) (aE : List EdgeRef)
    (start target : NodeId) (hne : "" ∉ graphKeys g) :
    ∀ (fuel : ℕ) (dist : NodeId → Option ℕ∞)
      (prev : NodeId → Option (Option NodeId)) (queue : List NodeId),
      DijkInv g aN aE start target dist prev queue →
      queue.length = fuel →
      DState g aN aE start
        (dijkstraLoop g target aN aE fuel dist prev queue).1
        (dijkstraLoop g target aN aE fuel dist prev queue).2 ∧
      (∀ c ∈ ReachCosts g aN aE start target,
        (((dijkstraLoop g target aN aE fuel dist prev queue).1 target).getD ⊤)
          ≤ c) := by
  intro fuel
  induction fuel with
  | zero =>
    intro dist prev queue hinv hlen
    have hq : queue = [] := List.length_eq_zero.1 hlen
    rw [hq] at hinv
    exact absurd hinv.tq (List.not_mem_nil _)
  | succ fuel ih =>
    intro dist prev queue hinv hlen
    rw [dijkstraLoop]
    cases hsort : queue.insertionSort (queueRel dist) with
    | nil =>
      have hperm := List.perm_insertionSort (queueRel dist) queue
      rw [hsort] at hperm
      rw [hperm.symm.eq_nil] at hinv
      exact absurd hinv.tq (List.not_mem_nil _)
    | cons u rest =>
      have hperm : (u :: rest).Perm queue := by
        rw [← hsort]
        exact List.perm_insertionSort _ _
      have hmemu : u ∈ queue := hperm.subset (List.mem_cons_self _ _)
      have hu_keys : u ∈ graphKeys g := hinv.qsub u hmemu
      have hu_ne : u ≠ "" := fun h => hne (h ▸ hu_keys)
      have hstart_keys : start ∈ graphKeys g :=
        (hinv.base.ddom start).1 (by rw [hinv.base.dstart]; rfl)
      have hmin := sortedHead_min dist queue u rest hsort
      dsimp only
      rw [if_neg hu_ne]
      by_cases hut : u = target
      · rw [if_pos hut]
        refine ⟨hinv.base, ?_⟩
        intro c hc
        rcases hc with ⟨steps, n, rfl, hpc, hlast⟩
        have hb := dijk_min_bound g aN aE dist queue u hmin hinv.qsub
          hinv.relaxed start steps n hpc hstart_keys
          (by rw [hlast]; exact hinv.tq)
        rw [hinv.base.dstart] at hb
        rw [← hut]
        simpa using hb
      · rw [if_neg hut]
        cases hdu : dist u with
        | none =>
          have hds := (hinv.base.ddom u).2 hu_keys
          rw [hdu] at hds
          exact absurd hds (by simp)
        | some du =>
          cases du with
          | top =>
            refine ⟨hinv.base, ?_⟩
            intro c hc
            rcases hc with ⟨steps, n, rfl, hpc, hlast⟩
            have hb := dijk_min_bound g aN aE dist queue u hmin hinv.qsub
              hinv.relaxed start steps n hpc hstart_keys
              (by rw [hlast]; exact hinv.tq)
            rw [hdu, hinv.base.dstart] at hb
            simp at hb
          | coe dn =>
            obtain ⟨adj, hadj⟩ := graphAdj_isSome_of_mem g u hu_keys
            have hadjD : (graphAdj g u).getD [] = adj := by rw [hadj]; rfl
            have hlen2 : rest.length = fuel := by
              have hpl := hperm.length_eq
              rw [hlen] at hpl
              exact Nat.succ_injective hpl
            have hdu2 : dist u = some ((dn : ℕ∞)) := hdu
            dsimp only
            rw [hadjD]
            exact ih _ _ rest
              (dijk_preserve g aN aE start target dist prev queue u rest hinv
                hsort hut dn hdu2 adj hadj) hlen2

/-- Walking the final predecessor chain from a finitely-distanced key
reconstructs an admissible minimum-witness path from the start, provided
all weights are positive (each chain step strictly decreases the recorded
distance, so the walk visits distinct keys and terminates within the
fuel). -/
theorem recon_ok (g : Graph) (aN : List NodeId) (aE : List EdgeRef)
    (start : NodeId) (dF : NodeId → Option ℕ∞)
    (pF : NodeId → Option (Option NodeId))
    (hst : DState g aN aE start dF pF) (hpos : PosWeights g) :
    ∀ (fuel : ℕ) (u : NodeId) (acc seen : List NodeId) (n : ℕ),
      u ∈ graphKeys g → dF u = some ((n : ℕ∞)) →
      seen.Nodup → u ∉ seen → (∀ s ∈ seen, s ∈ graphKeys g) →
      (∀ s ∈ seen, ∃ ns : ℕ, dF s = some ((ns : ℕ∞)) ∧ n < ns) →
      (graphKeys g).length + 1 ≤ fuel + seen.length →
      ∃ steps : List NodeId,
        PathCost g aN aE start steps n ∧
        steps.getLastD start = u ∧
        reconWalk pF fuel u acc = start :: (steps ++ acc) := by
  intro fuel
  induction fuel with
  | zero =>
    intro u acc seen n hu hn hnd2 hus hsk hsb hlen
    exfalso
    have hsub : (u :: seen) ⊆ graphKeys g := by
      intro x hx
      rcases List.mem_cons.1 hx with rfl | hx2
      · exact hu
      · exact hsk x hx2
    have hnd3 : (u :: seen).Nodup := List.nodup_cons.2 ⟨hus, hnd2⟩
    have hle := (List.subperm_of_subset hnd3 hsub).length_le
    simp only [List.length_cons] at hle
    omega
  | succ fuel ih =>
    intro u acc seen n hu hn hnd2 hus hsk hsb hlen
    rw [reconWalk]
    cases hpu : pF u with
    | none =>
      have hps := (hst.pdom u).2 hu
      rw [hpu] at hps
      exact absurd hps (by simp)
    | some o =>
      cases o with
      | none =>
        have hu_start : u = start := by
          by_contra hne2
          have htp := hst.topprev u hne2 hpu
          rw [hn] at htp
          injection htp with htp
          exact absurd htp (by simp)
        subst hu_start
        have hn0 : n = 0 := by
          have hds := hst.dstart
          rw [hn] at hds
          injection hds with hds
          exact_mod_cast hds
        subst hn0
        exact ⟨[], PathCost.nil _, rfl, rfl⟩
      | some p =>
        rcases hst.chainF u p hpu with ⟨hpk, w, dp, hstep, hdp, hdvu⟩
        have hn2 : n = dp + w := by
          rw [hn] at hdvu
          injection hdvu with hdvu
          exact_mod_cast hdvu
        have hw : 0 < w := by
          rcases hstep.1 with ⟨adj2, hadj2, hmem2⟩
          exact hpos _ (lookup_pair_mem g p adj2 hadj2) _ hmem2
        have hdplt : dp < n := by omega
        have hpne : p ∉ u :: seen := by
          intro hmem3
          rcases List.mem_cons.1 hmem3 with rfl | hmem4
          · rw [hn] at hdp
            injection hdp with hdp
            have : n = dp := by exact_mod_cast hdp
            omega
          · rcases hsb p hmem4 with ⟨ns, hns, hlt2⟩
            rw [hns] at hdp
            injection hdp with hdp
            have : ns = dp := by exact_mod_cast hdp
            omega
        rcases ih p (u :: acc) (u :: seen) dp hpk hdp
            (List.nodup_cons.2 ⟨hus, hnd2⟩) hpne
            (by
              intro s hs
              rcases List.mem_cons.1 hs with rfl | hs2
              · exact hu
              · exact hsk s hs2)
            (by
              intro s hs
              rcases List.mem_cons.1 hs with rfl | hs2
              · exact ⟨n, hn, hdplt⟩
              · rcases hsb s hs2 with ⟨ns, hns, hlt2⟩
                exact ⟨ns, hns, lt_trans hdplt hlt2⟩)
            (by
              simp only [List.length_cons]
              omega) with ⟨steps, hpc, hlast, hrw⟩
        refine ⟨steps ++ [u], ?_, List.getLastD_concat _ _ _, ?_⟩
        · rw [hn2]
          exact pathCost_snoc g aN aE start p u w steps dp hpc hlast hstep
        · dsimp only
          rw [hrw]
          simp

/-- The initial state of `findPath` satisfies the loop invariant. -/
theorem dijk_init (g : Graph) (aN : List NodeId) (aE : List EdgeRef)
    (start target : NodeId) (hnd : (graphKeys g).Nodup)
    (hs : start ∈ graphKeys g) (ht : target ∈ graphKeys g) :
    DijkInv g aN aE start target
      (setKey (fun v => if (graphKeys g).contains v then some ⊤ else none)
        start ((0 : ℕ∞)))
      (fun v => if (graphKeys g).contains v then some none else none)
      (graphKeys g) := by
  have hcont : ∀ v : NodeId, (graphKeys g).contains v = true ↔ v ∈ graphKeys g :=
    fun v => List.elem_iff
  refine
    { base :=
      { ddom := ?_, pdom := ?_, dstart := setKey_same _ _ _, pstart := ?_,
        sound := ?_, topprev := ?_, chainF := ?_ },
      qnd := hnd, qsub := fun v hv => hv, tq := ht,
      chainSettled := ?_, settledMin := ?_, relaxed := ?_ }
  · intro v
    by_cases hv : v = start
    · subst hv
      rw [setKey_same]
      simp [hs]
    · rw [setKey_other _ _ _ _ hv]
      by_cases hm : v ∈ graphKeys g
      · rw [if_pos ((hcont v).2 hm)]
        simp [hm]
      · rw [if_neg (fun hc => hm ((hcont v).1 hc))]
        simp [hm]
  · intro v
    by_cases hm : v ∈ graphKeys g
    · rw [if_pos ((hcont v).2 hm)]
      simp [hm]
    · rw [if_neg (fun hc => hm ((hcont v).1 hc))]
      simp [hm]
  · rw [if_pos ((hcont start).2 hs)]
  · intro v n h
    by_cases hv : v = start
    · subst hv
      rw [setKey_same] at h
      injection h with h
      have hn : (0 : ℕ) = n := by exact_mod_cast h
      subst hn
      exact reachCosts_zero g aN aE _
    · rw [setKey_other _ _ _ _ hv] at h
      by_cases hm : v ∈ graphKeys g
      · rw [if_pos ((hcont v).2 hm)] at h
        injection h with h
        exact absurd h.symm (by simp)
      · rw [if_neg (fun hc => hm ((hcont v).1 hc))] at h
        exact absurd h (by simp)
  · intro v hv h
    rw [setKey_other _ _ _ _ hv]
    by_cases hm : v ∈ graphKeys g
    · rw [if_pos ((hcont v).2 hm)]
    · rw [if_neg (fun hc => hm ((hcont v).1 hc))] at h
      exact absurd h (by simp)
  · intro v p h
    by_cases hm : v ∈ graphKeys g
    · rw [if_pos ((hcont v).2 hm)] at h
      injection h with h
      exact absurd h (by simp)
    · rw [if_neg (fun hc => hm ((hcont v).1 hc))] at h
      exact absurd h (by simp)
  · intro v p h
    by_cases hm : v ∈ graphKeys g
    · rw [if_pos ((hcont v).2 hm)] at h
      injection h with h
      exact absurd h (by simp)
    · rw [if_neg (fun hc => hm ((hcont v).1 hc))] at h
      exact absurd h (by simp)
  · intro p hp hpq
    exact absurd hp hpq
  · intro p hp hpq
    exact absurd hp hpq

/-- Claim C3 (amended): on a duplicate-free graph whose keys do not include
the empty string and whose weights are positive, `findPath` returns a
minimum-cost admissible step sequence (start node excluded) among the walks
that avoid the avoided nodes at every entered node and the avoided edges in
both directions — the start node itself is exempt from the node constraint —
and it returns the empty sequence exactly when the target is the start or
no such walk exists. -/
theorem claim_C3_amended (g : Graph) (aN : List NodeId) (aE : List EdgeRef)
    (start target : NodeId)
    (hnd : (graphKeys g).Nodup) (hs : start ∈ graphKeys g)
    (ht : target ∈ graphKeys g) (hne : "" ∉ graphKeys g)
    (hpos : PosWeights g) :
    (findPath start target g aN aE = [] ↔
      (target = start ∨ ReachCosts g aN aE start target = ∅)) ∧
    (findPath start target g aN aE ≠ [] →
      ∃ n : ℕ, PathCost g aN aE start (findPath start target g aN aE) n ∧
        (findPath start target g aN aE).getLastD start = target ∧
        ((n : ℕ∞)) ∈ ReachCosts g aN aE start target ∧
        ∀ c ∈ ReachCosts g aN aE start target, ((n : ℕ∞)) ≤ c) := by
  obtain ⟨hstate, hminT⟩ := dijkstraLoop_post g aN aE start target hne
    (graphKeys g).length
    (setKey (fun v => if (graphKeys g).contains v then some ⊤ else none)
      start ((0 : ℕ∞)))
    (fun v => if (graphKeys g).contains v then some none else none)
    (graphKeys g) (dijk_init g aN aE start target hnd hs ht) rfl
  set F := dijkstraLoop g target aN aE (graphKeys g).length
    (setKey (fun v => if (graphKeys g).contains v then some ⊤ else none)
      start ((0 : ℕ∞)))
    (fun v => if (graphKeys g).contains v then some none else none)
    (graphKeys g) with hFdef
  by_cases hts : target = start
  · subst hts
    have hfp : findPath target target g aN aE = [] := by
      unfold findPath
      dsimp only
      rw [← hFdef, if_pos (Or.inr rfl), reconWalk, hstate.pstart]
    rw [hfp]
    exact ⟨⟨fun _ => Or.inl rfl, fun _ => rfl⟩, fun h => absurd rfl h⟩
  · cases hpt : F.2 target with
    | none =>
      have hps := (hstate.pdom target).2 ht
      rw [hpt] at hps
      exact absurd hps (by simp)
    | some o =>
      cases o with
      | none =>
        have hcond : ¬(F.2 target ≠ some none ∨ target = start) := by
          rintro (h | h)
          · exact h hpt
          · exact hts h
        have hfp : findPath start target g aN aE = [] := by
          unfold findPath
          dsimp only
          rw [← hFdef, if_neg hcond]
        have hempty : ReachCosts g aN aE start target = ∅ := by
          rw [Set.eq_empty_iff_forall_not_mem]
          intro c hc
          have h1 := hminT c hc
          rw [hstate.topprev target hts hpt] at h1
          rcases hc with ⟨steps, n, rfl, -, -⟩
          simp at h1
        rw [hfp]
        exact ⟨⟨fun _ => Or.inr hempty, fun _ => rfl⟩, fun h => absurd rfl h⟩
      | some p =>
        rcases hstate.chainF target p hpt with ⟨hpk, w, dp0, hstep, hdp0, hdT⟩
        have hcond : (F.2 target ≠ some none ∨ target = start) :=
          Or.inl (by rw [hpt]; simp)
        obtain ⟨steps, hpc, hlast, hrecon⟩ := recon_ok g aN aE start F.1 F.2
          hstate hpos ((graphKeys g).length + 1) target [] [] (dp0 + w) ht hdT
          List.nodup_nil (List.not_mem_nil _)
          (by intro s hs2; cases hs2) (by intro s hs2; cases hs2) (by simp)
        have hfp2 : findPath start target g aN aE = steps := by
          unfold findPath
          dsimp only
          rw [← hFdef, if_pos hcond, hrecon]
          simp
        have hsne : steps ≠ [] := by
          intro h0
          rw [h0] at hlast
          exact hts hlast.symm
        rw [hfp2]
        refine ⟨⟨fun h => absurd h hsne, ?_⟩, ?_⟩
        · rintro (h | h)
          · exact absurd h hts
          · exfalso
            have hmem := hstate.sound target (dp0 + w) hdT
            rw [h] at hmem
            exact hmem
        · intro h2
          refine ⟨dp0 + w, hpc, hlast, hstate.sound target (dp0 + w) hdT, ?_⟩
          intro c hc
          have h3 := hminT c hc
          rw [hdT] at h3
          simpa using h3

/-- Claim C3 counterexample: with `avoidNodes = ["A"]` no walk avoids every
node of `avoidNodes` in the claim's reading (every candidate's node sequence
begins at the start node "A"), so the claim demands the empty result; but
`findPath` never checks the start node against `avoidNodes` and returns the
nonempty path ["B"]. -/
theorem claim_C3_counterexample :
    findPath "A" "B" gAB2 ["A"] [] = ["B"] ∧
    ∀ steps : List NodeId, ¬ AvoidsAllNodes "A" steps ["A"] := by
  refine ⟨by decide, ?_⟩
  intro steps h
  exact h "A" (List.mem_cons_self _ _) (by decide)

/-- Claim C3 witness: the amended optimality statement applied to the
four-node map. -/
theorem claim_C3_witness :
    ((graphKeys graph4).Nodup ∧ "A" ∈ graphKeys graph4 ∧
      "C" ∈ graphKeys graph4 ∧ "" ∉ graphKeys graph4 ∧ PosWeights graph4) ∧
    ((findPath "A" "C" graph4 [] [] = [] ↔
      ("C" = "A" ∨ ReachCosts graph4 [] [] "A" "C" = ∅)) ∧
     (findPath "A" "C" graph4 [] [] ≠ [] →
      ∃ n : ℕ, PathCost graph4 [] [] "A" (findPath "A" "C" graph4 [] []) n ∧
        (findPath "A" "C" graph4 [] []).getLastD "A" = "C" ∧
        ((n : ℕ∞)) ∈ ReachCosts graph4 [] [] "A" "C" ∧
        ∀ c ∈ ReachCosts graph4 [] [] "A" "C", ((n : ℕ∞)) ≤ c)) :=
  ⟨⟨by decide, by decide, by decide, by decide,
    by unfold PosWeights; decide⟩,
   claim_C3_amended graph4 [] [] "A" "C" (by decide) (by decide) (by decide)
     (by decide) (by unfold PosWeights; decide)⟩
